import Mathlib

/-!
Verification of the scope-aware retrieval and ingestion pipeline of the
Querious repository (chunk_search.py, chunk_service.py, document_service.py,
document_routes.py, api_routes.py), as a shallow embedding in Lean 4.

The MongoDB collections are modelled as lists of records; external
collaborators (the SHA-256 hash, the uuid5 function, the MongoDB Atlas
`$vectorSearch` index) are taken as function parameters, since the Python
code treats them as pure oracles.
-/

namespace Querious

/-- `models.DocumentStatus` (models.py): pending / ready / deleting. -/
inductive DocStatus
  | pending
  | ready
  | deleting
deriving DecidableEq, Repr

/-- A row of the `documents` collection (`models.Document`, models.py).
`uploaded_at` is dropped: no modelled operation reads it. -/
structure Doc where
  id : String
  filename : String
  s3_key : String
  checksum : String
  size_bytes : Nat
  status : DocStatus
deriving DecidableEq, Repr

/-- A row of the `document_scopes` collection (`models.DocumentScope`).
`scope_type` is kept as a raw string ("chat" / "project"), matching how
chunk_search.py and the route handlers query the collection.  The `id` and
`linked_at` fields are dropped: no modelled operation reads them. -/
structure ScopeLink where
  document_id : String
  scope_type : String
  scope_id : String
deriving DecidableEq, Repr

/-- A row of the `chunks` collection (`models.Chunk`).  Embedding values are
never inspected by the modelled code, so the vector is a `List Int`. -/
structure ChunkRow where
  id : String
  document_id : String
  chunk_index : Nat
  page_number : Nat
  text : String
  embedding : List Int
deriving DecidableEq, Repr

/-- A row of the legacy vector collection used by
`vector_db.MongoDBStorage.delete_by_document_id`, which filters on a
`document_id` field. -/
structure VecRow where
  document_id : String
deriving DecidableEq, Repr

/-- A row of the `chats` collection (`models.Chat`), fields the modelled
routes read. -/
structure ChatRow where
  id : String
  user_id : String
  project_id : Option String
deriving DecidableEq, Repr

/-- A row of the `projects` collection (`models.Project`), fields the
modelled routes read. -/
structure ProjectRow where
  id : String
  user_id : String
deriving DecidableEq, Repr

/-- A row of the `users` collection, restricted to the fields the modelled
routes touch. -/
structure UserRow where
  id : String
  active_documents_count : Int
deriving DecidableEq, Repr

/-- A row of the `messages` collection, restricted to the field the
modelled deletion routes filter on. -/
structure MsgRow where
  id : String
  chat_id : String
deriving DecidableEq, Repr

/-- The MongoDB database state plus the S3 bucket (set of object keys). -/
structure DB where
  documents : List Doc
  document_scopes : List ScopeLink
  chunks : List ChunkRow
  vectors : List VecRow
  chats : List ChatRow
  projects : List ProjectRow
  users : List UserRow
  messages : List MsgRow
  blobs : List String
deriving DecidableEq, Repr

/-! ## Scope resolver: `chunk_search.get_document_ids_for_scope` -/

/-- Does a scope-link row match the DocumentScope query
`{"scope_type": t, "scope_id": s}`? -/
def linkMatches (t s : String) (l : ScopeLink) : Bool :=
  l.scope_type == t && l.scope_id == s

/-- `chunk_search.get_document_ids_for_scope` (chunk_search.py lines 28-78):
builds a DocumentScope query by scope type (for a chat with
`include_project` and a truthy `project_id`, an `$or` of the chat scope and
the parent project scope), then returns `list(set(...))` of the matching
`document_id`s.  The Python `set` collapses duplicates in unspecified
order; the model keeps first occurrences via `eraseDups`. -/
def get_document_ids_for_scope (links : List ScopeLink) (scope_type scope_id : String)
    (include_project : Bool) (project_id : Option String) : List String :=
  let matching : List ScopeLink :=
    if scope_type == "project" then
      links.filter (linkMatches "project" scope_id)
    else if scope_type == "chat" then
      match include_project, project_id with
      | true, some pid =>
          links.filter (fun l => linkMatches "chat" scope_id l || linkMatches "project" pid l)
      | _, _ => links.filter (linkMatches "chat" scope_id)
    else []
  (matching.map (·.document_id)).dedup

/-! ## Chunk store: `chunk_service.generate_chunk_id` / `save_chunks` -/

/-- One element of the `chunks_data` argument of `save_chunks`: a dict with
keys `text`, `page_number`, `chunk_index`. -/
structure ChunkData where
  text : String
  page_number : Nat
  chunk_index : Nat
deriving DecidableEq, Repr

/-- `chunk_service.generate_chunk_id` (chunk_service.py lines 24-30):
`uuid.uuid5(NAMESPACE_URL, f"{document_id}:{chunk_index}")`.  `uuid5` is a
pure hash of the name string and is abstracted as a function parameter, so
the id is by construction a deterministic function of
`(document_id, chunk_index)`. -/
def generate_chunk_id (uuid5 : String → String) (document_id : String)
    (chunk_index : Nat) : String :=
  uuid5 (document_id ++ ":" ++ toString chunk_index)

/-- One `UpdateOne({"id": chunk_id}, {"$set": chunk_doc}, upsert=True)`
applied to the `chunks` collection: replace every row with a matching id,
or append the row if the id is absent. -/
def chunkUpsert (st : List ChunkRow) (row : ChunkRow) : List ChunkRow :=
  if st.any (fun x => x.id == row.id) then
    st.map (fun x => if x.id == row.id then row else x)
  else st ++ [row]

/-- The chunk document built in the `save_chunks` loop for one
`(chunk_data, embedding)` pair. -/
def chunkRowOf (uuid5 : String → String) (document_id : String)
    (p : ChunkData × List Int) : ChunkRow :=
  { id := generate_chunk_id uuid5 document_id p.1.chunk_index
    document_id := document_id
    chunk_index := p.1.chunk_index
    page_number := p.1.page_number
    text := p.1.text
    embedding := p.2 }

/-- An ordered bulk write of upserts. -/
def applyRows (st : List ChunkRow) (rows : List ChunkRow) : List ChunkRow :=
  rows.foldl chunkUpsert st

/-- `chunk_service.save_chunks` (chunk_service.py lines 33-80): early-out on
empty `chunks_data`, otherwise zip data with embeddings, build one chunk
document per pair keyed by the deterministic chunk id, and bulk-upsert them
in order.  The returned saved-count is not modelled; the function returns
the resulting `chunks` collection. -/
def save_chunks (uuid5 : String → String) (document_id : String)
    (chunks_data : List ChunkData) (embeddings : List (List Int))
    (st : List ChunkRow) : List ChunkRow :=
  if chunks_data.isEmpty then st
  else applyRows st ((chunks_data.zip embeddings).map (chunkRowOf uuid5 document_id))

/-- Does the chunks collection contain a row with the given id?  (The
`upsert` filter `{"id": chunk_id}`.) -/
def hasId (st : List ChunkRow) (i : String) : Bool :=
  st.any (fun x => x.id == i)

/-- The ids of the chunks collection are pairwise distinct (the state the
collection is always in, since every write is an upsert keyed by id). -/
def idsNodup (st : List ChunkRow) : Prop :=
  (st.map (·.id)).Nodup

instance (st : List ChunkRow) : Decidable (idsNodup st) := by
  unfold idsNodup
  infer_instance

/-! ## Retrieval engine: `chunk_search.search_chunks` -/

/-- One document produced by the `$vectorSearch` + `$lookup` + `$unwind` +
`$project` aggregation pipeline of `search_chunks`.  Every field is
optional, matching the `r.get(...)` defaults in the Python loop; the
`$unwind` with `preserveNullAndEmptyArrays` can leave `filename` absent. -/
structure RawHit where
  text : Option String
  page_number : Option Nat
  filename : Option String
  score : Option Int
deriving DecidableEq, Repr

/-- The dict returned by `search_chunks`: parallel lists of contexts,
formatted sources and scores. -/
structure SearchResult where
  contexts : List String
  sources : List String
  scores : List Int
deriving DecidableEq, Repr

/-- The source string `f"{filename}, page {page}"` with the Python defaults
`"Unknown"` and `"?"`. -/
def formatSource (r : RawHit) : String :=
  (r.filename.getD "Unknown") ++ ", page " ++ ((r.page_number.map toString).getD "?")

/-- The Atlas vector index, abstracted: given query vector, document-id
filter and `numCandidates` it returns ranked hits; the pipeline `limit`
field truncates them to `top_k` (Mongo `$vectorSearch.limit` semantics). -/
def VectorIndex : Type :=
  List Int → List String → Nat → List RawHit

/-- `chunk_search.search_chunks` (chunk_search.py lines 81-166): returns the
empty result for an empty `document_ids` list without consulting the index;
otherwise runs the pipeline (`numCandidates = top_k * 10`,
`limit = top_k`) and accumulates only hits with non-empty text, keeping the
three output lists in lockstep. -/
def search_chunks (vsearch : VectorIndex) (query_vector : List Int)
    (document_ids : List String) (top_k : Nat) : SearchResult :=
  if document_ids.isEmpty then
    ⟨[], [], []⟩
  else
    let results := (vsearch query_vector document_ids (top_k * 10)).take top_k
    let kept := results.filter (fun r => r.text.getD "" != "")
    ⟨kept.map (fun r => r.text.getD ""),
     kept.map formatSource,
     kept.map (fun r => r.score.getD 0)⟩

/-! ## Cascade deletion -/

/-- A deletion operation issued against an external store, in issue order:
vector-store delete by document id, chunk delete by document id,
best-effort blob (S3) delete, and Document metadata-row delete. -/
inductive DelEv
  | vectors (document_id : String)
  | chunks (document_id : String)
  | blob (document_id : String) (s3_key : String)
  | docRow (document_id : String)
deriving DecidableEq, Repr

/-- Success/failure of the three fallible external delete calls made for
one document (each `except` block in `safe_delete_document`); a failed call
leaves the corresponding store unchanged. -/
structure Flags where
  vecOk : Bool
  chunkOk : Bool
  s3Ok : Bool
deriving DecidableEq, Repr

/-- The sequence of delete operations `safe_delete_document` issues for one
document: vectors, then chunks, then (only when the document has a
non-empty `s3_key`) the blob. -/
def sdTrace (doc : Doc) : List DelEv :=
  [DelEv.vectors doc.id, DelEv.chunks doc.id] ++
    (if doc.s3_key != "" then [DelEv.blob doc.id doc.s3_key] else [])

/-- Result of `safe_delete_document`: updated state, issued operations, and
the returned success flag. -/
structure SdRes where
  db : DB
  trace : List DelEv
  ok : Bool

/-- `document_service.safe_delete_document` (document_service.py lines
18-84): delete vector entries by document id, then chunks by document id,
then best-effort the S3 object (only if `s3_key` is truthy; its failure
does not clear `success`).  Each delete is wrapped in try/except — a
failure (modelled by `Flags`) is logged and leaves that store unchanged.
Returns `success = vectors-and-chunks both deleted`. -/
def safe_delete_document (fl : Flags) (db : DB) (doc : Doc) : SdRes :=
  let db1 := if fl.vecOk then
      { db with vectors := db.vectors.filter (fun v => v.document_id != doc.id) }
    else db
  let db2 := if fl.chunkOk then
      { db1 with chunks := db1.chunks.filter (fun c => c.document_id != doc.id) }
    else db1
  let db3 := if doc.s3_key != "" && fl.s3Ok then
      { db2 with blobs := db2.blobs.filter (fun k => k != doc.s3_key) }
    else db2
  ⟨db3, sdTrace doc, fl.vecOk && fl.chunkOk⟩

/-- Accumulated result of running `safe_delete_document` over a list of
documents: final state, concatenated traces, `deleted_count`, and the ids
of the documents whose deletion succeeded (`all_doc_ids` in
`delete_project`). -/
structure SdAcc where
  db : DB
  trace : List DelEv
  count : Nat
  succIds : List String

/-- The per-document deletion loop shared by `delete_chat` and
`delete_project`: `if safe_delete_document(...): deleted_count += 1;
all_doc_ids.append(doc["id"])`. -/
def sdFold (fl : String → Flags) : List Doc → DB → SdAcc
  | [], db => ⟨db, [], 0, []⟩
  | doc :: docs, db =>
    let r := safe_delete_document (fl doc.id) db doc
    let rest := sdFold fl docs r.db
    ⟨rest.db, r.trace ++ rest.trace,
      (if r.ok then 1 else 0) + rest.count,
      (if r.ok then [doc.id] else []) ++ rest.succIds⟩

/-- MongoDB `update_one`: apply `f` to the first element matching `p`. -/
def updateFirst (p : α → Bool) (f : α → α) : List α → List α
  | [] => []
  | x :: xs => if p x then f x :: xs else x :: updateFirst p f xs

/-- MongoDB `delete_one`: remove the first element matching `p`. -/
def eraseFirst (p : α → Bool) : List α → List α
  | [] => []
  | x :: xs => if p x then xs else x :: eraseFirst p xs

/-- The document ids linked to a chat via `document_scopes`
(`delete_chat`, api_routes.py lines 304-306). -/
def chatDocIds (db : DB) (chat_id : String) : List String :=
  (db.document_scopes.filter (linkMatches "chat" chat_id)).map (·.document_id)

/-- The guarded decrement of `active_documents_count`
(api_routes.py lines 328-333 and 181-187): `update_one` filtered by
`{"id": user_id, "active_documents_count": {"$gte": n}}`. -/
def decrementActiveDocs (user_id : String) (n : Nat) (users : List UserRow) :
    List UserRow :=
  updateFirst
    (fun u => u.id == user_id && decide ((n : Int) ≤ u.active_documents_count))
    (fun u => { u with active_documents_count := u.active_documents_count - (n : Int) })
    users

/-- `api_routes.delete_chat` (api_routes.py lines 282-335): ownership check
(404 → `none`), per-document `safe_delete_document` over the chat-linked
documents, unconditional `delete_many` of those documents' metadata rows,
deletion of the chat's scope links, messages and chat row, and the guarded
counter decrement by `deleted_count`.  Returns the final state and the
issued document-data deletion operations (one `docRow` event per metadata
row removed). -/
def delete_chat (fl : String → Flags) (db : DB) (chat_id user_id : String) :
    Option (DB × List DelEv) :=
  match db.chats.find? (fun c => c.id == chat_id && c.user_id == user_id) with
  | none => none
  | some _ =>
    let doc_ids := chatDocIds db chat_id
    let docs := db.documents.filter (fun d => doc_ids.contains d.id)
    let acc := sdFold fl docs db
    let removed := acc.db.documents.filter (fun d => doc_ids.contains d.id)
    let db2 := if doc_ids.isEmpty then acc.db else
      { acc.db with documents := acc.db.documents.filter (fun d => !doc_ids.contains d.id) }
    let db3 := { db2 with
      document_scopes := db2.document_scopes.filter (fun l => !(linkMatches "chat" chat_id l)),
      messages := db2.messages.filter (fun m => m.chat_id != chat_id),
      chats := db2.chats.filter (fun c => c.id != chat_id) }
    let db4 := if 0 < acc.count then
        { db3 with users := decrementActiveDocs user_id acc.count db3.users }
      else db3
    some (db4, acc.trace ++ removed.map (fun d => DelEv.docRow d.id))

/-- The per-chat inner loop of `delete_project` (api_routes.py lines
153-168): for each chat of the project, run `safe_delete_document` over the
chat-linked documents, then delete that chat's scope links and messages. -/
def projChatFold (fl : String → Flags) : List ChatRow → DB → SdAcc
  | [], db => ⟨db, [], 0, []⟩
  | chat :: rest, db =>
    let doc_ids := chatDocIds db chat.id
    let docs := db.documents.filter (fun d => doc_ids.contains d.id)
    let acc := sdFold fl docs db
    let db2 := { acc.db with
      document_scopes := acc.db.document_scopes.filter
        (fun l => !(linkMatches "chat" chat.id l)),
      messages := acc.db.messages.filter (fun m => m.chat_id != chat.id) }
    let accRest := projChatFold fl rest db2
    ⟨accRest.db, acc.trace ++ accRest.trace, acc.count + accRest.count,
      acc.succIds ++ accRest.succIds⟩

/-- `api_routes.delete_project` (api_routes.py lines 119-188): ownership
check, `safe_delete_document` over the project-linked documents, the
per-chat loop, `delete_many` of the metadata rows of the documents whose
deletion succeeded (`all_doc_ids`), deletion of the project scope links,
chats and project row, and the guarded counter decrement by
`total_deleted`. -/
def delete_project (fl : String → Flags) (db : DB) (project_id user_id : String) :
    Option (DB × List DelEv) :=
  match db.projects.find? (fun p => p.id == project_id && p.user_id == user_id) with
  | none => none
  | some _ =>
    let project_doc_ids :=
      (db.document_scopes.filter (linkMatches "project" project_id)).map (·.document_id)
    let project_docs := db.documents.filter (fun d => project_doc_ids.contains d.id)
    let acc1 := sdFold fl project_docs db
    let chats := acc1.db.chats.filter (fun c => c.project_id == some project_id)
    let acc2 := projChatFold fl chats acc1.db
    let all_ids := acc1.succIds ++ acc2.succIds
    let removed := acc2.db.documents.filter (fun d => all_ids.contains d.id)
    let db3 := if all_ids.isEmpty then acc2.db else
      { acc2.db with documents := acc2.db.documents.filter (fun d => !all_ids.contains d.id) }
    let db4 := { db3 with
      document_scopes := db3.document_scopes.filter
        (fun l => !(linkMatches "project" project_id l)),
      chats := db3.chats.filter (fun c => c.project_id != some project_id),
      projects := db3.projects.filter (fun p => p.id != project_id) }
    let totalCount := acc1.count + acc2.count
    let db5 := if 0 < totalCount then
        { db4 with users := decrementActiveDocs user_id totalCount db4.users }
      else db4
    some (db5, acc1.trace ++ acc2.trace ++ removed.map (fun d => DelEv.docRow d.id))

/-- Outcome reported by the single-document delete route:
`deleted` / `deleting` / `unlinked`. -/
inductive DelStatus
  | deleted
  | deleting
  | unlinked
deriving DecidableEq, Repr

/-- `document_routes.validate_scope_ownership` (document_routes.py lines
67-80): 404 unless the chat/project row exists and is owned by the user. -/
def validate_scope_ownership (db : DB) (scope_type scope_id user_id : String) : Bool :=
  if scope_type == "chat" then
    (db.chats.find? (fun c => c.id == scope_id && c.user_id == user_id)).isSome
  else if scope_type == "project" then
    (db.projects.find? (fun p => p.id == scope_id && p.user_id == user_id)).isSome
  else true

/-- The unique-triple filter `{"document_id": ..., "scope_type": ...,
"scope_id": ...}` on `document_scopes`. -/
def linkTripleMatches (document_id scope_type scope_id : String) (l : ScopeLink) : Bool :=
  l.document_id == document_id && l.scope_type == scope_type && l.scope_id == scope_id

/-- `document_routes.delete_document` (document_routes.py lines 365-447),
for the branch where `scope_type` and `scope_id` are provided: 404 if the
document does not exist, ownership fails, or no matching link was deleted;
otherwise unlink, count the remaining links for the document, and if zero
remain: set status `deleting`, then try chunk delete → S3 delete (S3 errors
swallowed inside `delete_from_s3`) → metadata `delete_one`, returning
`deleted`; if the cleanup raises (modelled: the chunk `delete_many` fails
when `chunksOk = false`), return `deleting` with the row left at status
`deleting`.  If links remain, return `unlinked`. -/
def delete_document_route (chunksOk s3Ok : Bool) (db : DB)
    (document_id scope_type scope_id user_id : String) :
    Option (DB × List DelEv × DelStatus) :=
  match db.documents.find? (fun d => d.id == document_id) with
  | none => none
  | some doc =>
    if !(validate_scope_ownership db scope_type scope_id user_id) then none
    else if !(db.document_scopes.any (linkTripleMatches document_id scope_type scope_id))
    then none
    else
      let unlinked :=
        eraseFirst (linkTripleMatches document_id scope_type scope_id) db.document_scopes
      let db1 := { db with document_scopes := unlinked }
      let remaining_links :=
        db1.document_scopes.countP (fun l => l.document_id == document_id)
      if remaining_links == 0 then
        let marked := updateFirst (fun d => d.id == document_id)
          (fun d => { d with status := DocStatus.deleting }) db1.documents
        let db2 := { db1 with documents := marked }
        if chunksOk then
          let db3 :=
            { db2 with chunks := db2.chunks.filter (fun c => c.document_id != document_id) }
          let db4 := if s3Ok then
              { db3 with blobs := db3.blobs.filter (fun k => k != doc.s3_key) }
            else db3
          let db5 :=
            { db4 with documents := eraseFirst (fun d => d.id == document_id) db4.documents }
          some (db5,
            [DelEv.chunks document_id, DelEv.blob document_id doc.s3_key,
             DelEv.docRow document_id],
            DelStatus.deleted)
        else
          some (db2, [DelEv.chunks document_id], DelStatus.deleting)
      else
        some (db1, [], DelStatus.unlinked)

/-! ## Upload and dedup: `document_routes.upload_document` and
`api_routes.upload_document` -/

/-- `document_routes.calculate_checksum`: `"sha256:" + sha256(content)`.
The SHA-256 hex digest is abstracted as the function parameter `shaFn`, so
byte-identical content always yields the same checksum. -/
def calculate_checksum (shaFn : List Nat → String) (content : List Nat) : String :=
  "sha256:" ++ shaFn content

/-- `pymongo.errors.DuplicateKeyError`, raised by `insert_one` on a
unique-index violation. -/
inductive ApiErr
  | duplicateKey
deriving DecidableEq, Repr

deriving instance DecidableEq for Except

/-- `db.document_scopes.insert_one` under the unique compound index on
`(document_id, scope_type, scope_id)`
(`setup_document_db.py`, `idx_document_scopes_unique_link`). -/
def insert_scope_link (links : List ScopeLink) (l : ScopeLink) :
    Except ApiErr (List ScopeLink) :=
  if links.any (fun x => x.document_id == l.document_id &&
      x.scope_type == l.scope_type && x.scope_id == l.scope_id) then
    Except.error ApiErr.duplicateKey
  else Except.ok (links ++ [l])

/-- `db.documents.insert_one` under the unique indexes on `checksum` and
`s3_key` (`setup_document_db.py`). -/
def insert_document (docs : List Doc) (d : Doc) : Except ApiErr (List Doc) :=
  if docs.any (fun x => x.checksum == d.checksum || x.s3_key == d.s3_key) then
    Except.error ApiErr.duplicateKey
  else Except.ok (docs ++ [d])

/-- The fields of `document_routes.upload_document`'s response the claims
read. -/
structure UploadResp where
  document_id : String
  status : DocStatus
  is_new : Bool
deriving DecidableEq, Repr

/-- `document_routes.upload_document` (document_routes.py lines 120-235),
from the ownership check onward: file-type/size validation rejects before
any state change and is not modelled; the Inngest ingestion event queued
for new documents has no database effect here.  `shaFn` abstracts the
SHA-256 digest and `freshDocId` the uuid4-based `generate_id`.  A
checksum match reuses the existing document and only links it
(`is_new = false`); the scope-link insert treats `DuplicateKeyError` as
success (lines 207-211); a `DuplicateKeyError` from the document insert is
recovered by re-fetching by checksum (lines 189-196 — note `is_new` stays
`True` there, as in the source). -/
def upload_document_route (shaFn : List Nat → String) (freshDocId : String) (db : DB)
    (content : List Nat) (filename : String) (scope_type scope_id user_id : String) :
    Option (DB × UploadResp) :=
  if !(validate_scope_ownership db scope_type scope_id user_id) then none
  else
    let checksum := calculate_checksum shaFn content
    match db.documents.find? (fun d => d.checksum == checksum) with
    | some doc =>
      let links :=
        match insert_scope_link db.document_scopes ⟨doc.id, scope_type, scope_id⟩ with
        | Except.ok ls => ls
        | Except.error _ => db.document_scopes
      some ({ db with document_scopes := links }, ⟨doc.id, doc.status, false⟩)
    | none =>
      let s3_key := "documents/" ++ scope_type ++ "/" ++ scope_id ++ "/" ++ filename
      let db1 := { db with blobs := db.blobs ++ [s3_key] }
      let doc : Doc :=
        ⟨freshDocId, filename, s3_key, checksum, content.length, DocStatus.pending⟩
      match insert_document db1.documents doc with
      | Except.ok docs =>
        let db2 := { db1 with documents := docs }
        let links :=
          match insert_scope_link db2.document_scopes ⟨doc.id, scope_type, scope_id⟩ with
          | Except.ok ls => ls
          | Except.error _ => db2.document_scopes
        some ({ db2 with document_scopes := links }, ⟨doc.id, doc.status, true⟩)
      | Except.error _ =>
        match db1.documents.find? (fun d => d.checksum == checksum) with
        | some doc2 =>
          let links :=
            match insert_scope_link db1.document_scopes
                ⟨doc2.id, scope_type, scope_id⟩ with
            | Except.ok ls => ls
            | Except.error _ => db1.document_scopes
          some ({ db1 with document_scopes := links }, ⟨doc2.id, doc2.status, true⟩)
        | none => none

/-- The fields of `api_routes.upload_document`'s response the claims
read. -/
structure ApiUploadResp where
  document_id : String
  status : String
deriving DecidableEq, Repr

/-- `api_routes.upload_document` (api_routes.py lines 600-660), from the
checksum-dedup lookup onward (the preceding plan/limit/content validations
reject before any state change).  In the dedup branch the scope-link
`insert_one` (line 619) has **no** `DuplicateKeyError` handler, so a
unique-triple violation propagates to the caller as an error; the
new-document branch uploads the blob, inserts the document and link, and
increments the user's active-document counter. -/
def api_upload_document (db : DB) (checksum : String) (scope_type scope_id : String)
    (freshDocId s3_key filename : String) (size : Nat) (user_id : String) :
    Except ApiErr (DB × ApiUploadResp) :=
  match db.documents.find? (fun d => d.checksum == checksum) with
  | some existing_doc =>
    match insert_scope_link db.document_scopes
        ⟨existing_doc.id, scope_type, scope_id⟩ with
    | Except.error e => Except.error e
    | Except.ok links =>
      Except.ok ({ db with document_scopes := links }, ⟨existing_doc.id, "linked"⟩)
  | none =>
    let db1 := { db with blobs := db.blobs ++ [s3_key] }
    match insert_document db1.documents
        ⟨freshDocId, filename, s3_key, checksum, size, DocStatus.pending⟩ with
    | Except.error e => Except.error e
    | Except.ok docs =>
      match insert_scope_link db1.document_scopes ⟨freshDocId, scope_type, scope_id⟩ with
      | Except.error e => Except.error e
      | Except.ok links =>
        Except.ok ({ db1 with
          documents := docs,
          document_scopes := links,
          users := updateFirst (fun u => u.id == user_id)
            (fun u => { u with active_documents_count := u.active_documents_count + 1 })
            db1.users }, ⟨freshDocId, "uploaded"⟩)

/-! ### Concrete database fixtures for counterexamples and witnesses -/

/-- A user `u1` owning chat `c1` and project `p1`, with one ready document
`d1` linked to **both** `c1` and `p1`, one chunk and one legacy vector row. -/
def dbChatAndProject : DB :=
  { documents := [⟨"d1", "f.pdf", "k1", "sha256:aa", 3, DocStatus.ready⟩]
    document_scopes := [⟨"d1", "chat", "c1"⟩, ⟨"d1", "project", "p1"⟩]
    chunks := [⟨"ch1", "d1", 0, 1, "hello", [1]⟩]
    vectors := [⟨"d1"⟩]
    chats := [⟨"c1", "u1", none⟩]
    projects := [⟨"p1", "u1"⟩]
    users := [⟨"u1", 1⟩]
    messages := []
    blobs := ["k1"] }

/-- A user `u1` owning chat `c1`, with one ready document `d1` linked only
to `c1`, one chunk and one legacy vector row. -/
def dbChatOnly : DB :=
  { documents := [⟨"d1", "f.pdf", "k1", "sha256:aa", 3, DocStatus.ready⟩]
    document_scopes := [⟨"d1", "chat", "c1"⟩]
    chunks := [⟨"ch1", "d1", 0, 1, "hello", [1]⟩]
    vectors := [⟨"d1"⟩]
    chats := [⟨"c1", "u1", none⟩]
    projects := []
    users := [⟨"u1", 1⟩]
    messages := []
    blobs := ["k1"] }

/-- The trace of operations issued by `delete_chat` (empty on 404). -/
def chatTrace (fl : String → Flags) (db : DB) (chat_id user_id : String) : List DelEv :=
  match delete_chat fl db chat_id user_id with
  | none => []
  | some (_, tr) => tr

/-- The trace of operations issued by `delete_project` (empty on 404). -/
def projectTrace (fl : String → Flags) (db : DB) (project_id user_id : String) :
    List DelEv :=
  match delete_project fl db project_id user_id with
  | none => []
  | some (_, tr) => tr

/-- The trace of operations issued by `delete_document_route`
(empty on 404). -/
def routeTrace (chunksOk s3Ok : Bool) (db : DB)
    (document_id scope_type scope_id user_id : String) : List DelEv :=
  match delete_document_route chunksOk s3Ok db document_id scope_type scope_id user_id with
  | none => []
  | some (_, tr, _) => tr

/-! ### Order checkers for deletion traces -/

/-- Scanner state: documents whose vector delete / chunk delete has been
issued so far, and whether a metadata-row delete has been issued yet. -/
structure Seen where
  v : List String
  c : List String
  rows : Bool
deriving DecidableEq, Repr

/-- One step of the batched-path order checker: a chunk delete requires an
earlier vector delete for the same document; a blob or metadata-row delete
requires an earlier chunk delete for the same document; once a
metadata-row delete has been issued, no further vector/chunk/blob delete
may follow. -/
def seenStep (s : Seen) : DelEv → Option Seen
  | DelEv.vectors d => if s.rows then none else some ⟨d :: s.v, s.c, s.rows⟩
  | DelEv.chunks d =>
      if s.rows then none
      else if s.v.contains d then some ⟨s.v, d :: s.c, s.rows⟩ else none
  | DelEv.blob d _ =>
      if s.rows then none
      else if s.c.contains d then some s else none
  | DelEv.docRow d => if s.c.contains d then some ⟨s.v, s.c, true⟩ else none

/-- Run the batched-path order checker over a trace. -/
def scanTrace (s : Seen) : List DelEv → Option Seen
  | [] => some s
  | e :: tr =>
    match seenStep s e with
    | some s1 => scanTrace s1 tr
    | none => none

/-- One step of the single-document-path order checker: same as the batched
checker minus the vector-store step, which this path never issues (a
vector delete is a violation). -/
def singleStep (s : Seen) : DelEv → Option Seen
  | DelEv.vectors _ => none
  | DelEv.chunks d => if s.rows then none else some ⟨s.v, d :: s.c, s.rows⟩
  | DelEv.blob d _ =>
      if s.rows then none
      else if s.c.contains d then some s else none
  | DelEv.docRow d => if s.c.contains d then some ⟨s.v, s.c, true⟩ else none

/-- Run the single-document-path order checker over a trace. -/
def scanSingle (s : Seen) : List DelEv → Option Seen
  | [] => some s
  | e :: tr =>
    match singleStep s e with
    | some s1 => scanSingle s1 tr
    | none => none

end Querious

namespace Querious

/-! ## Lemmas about the chunk upsert machinery -/

theorem hasId_iff {st : List ChunkRow} {i : String} :
    (hasId st i = true ↔ ∃ y ∈ st, y.id = i) := by
  simp [hasId]

theorem hasId_upsert_self (st : List ChunkRow) (r : ChunkRow) :
    hasId (chunkUpsert st r) r.id = true := by
  unfold chunkUpsert
  by_cases h : st.any (fun x => x.id == r.id)
  · rw [if_pos h]
    rcases hasId_iff.mp h with ⟨y, hy, hyid⟩
    refine hasId_iff.mpr ⟨r, ?_, rfl⟩
    refine List.mem_map.mpr ⟨y, hy, ?_⟩
    simp [hyid]
  · rw [if_neg h]
    exact hasId_iff.mpr ⟨r, by simp, rfl⟩

theorem hasId_upsert_pres {st : List ChunkRow} {i : String} (r : ChunkRow)
    (h : hasId st i = true) : hasId (chunkUpsert st r) i = true := by
  rcases hasId_iff.mp h with ⟨y, hy, hyid⟩
  unfold chunkUpsert
  by_cases hb : st.any (fun x => x.id == r.id)
  · rw [if_pos hb]
    by_cases hyr : y.id = r.id
    · refine hasId_iff.mpr ⟨r, List.mem_map.mpr ⟨y, hy, by simp [hyr]⟩, by rw [← hyr, hyid]⟩
    · refine hasId_iff.mpr ⟨y, List.mem_map.mpr ⟨y, hy, by simp [hyr]⟩, hyid⟩
  · rw [if_neg hb]
    exact hasId_iff.mpr ⟨y, by simp [hy], hyid⟩

theorem upsert_replace {st : List ChunkRow} {r : ChunkRow}
    (h : hasId st r.id = true) :
    chunkUpsert st r = st.map (fun x => if x.id == r.id then r else x) := by
  unfold chunkUpsert
  rw [if_pos (show (st.any fun x => x.id == r.id) = true from h)]

theorem upsert_append {st : List ChunkRow} {r : ChunkRow}
    (h : hasId st r.id = false) :
    chunkUpsert st r = st ++ [r] := by
  unfold chunkUpsert
  rw [if_neg (show ¬((st.any fun x => x.id == r.id) = true) from by
    rw [show (st.any fun x => x.id == r.id) = hasId st r.id from rfl, h]
    exact Bool.false_ne_true)]

theorem not_hasId_forall {st : List ChunkRow} {i : String}
    (h : hasId st i = false) : ∀ y ∈ st, y.id ≠ i := by
  intro y hy
  intro hc
  rw [← Bool.not_eq_true] at h
  exact h (hasId_iff.mpr ⟨y, hy, hc⟩)

theorem upsert_override {st : List ChunkRow} {r x : ChunkRow}
    (h : x.id = r.id) :
    chunkUpsert (chunkUpsert st r) x = chunkUpsert st x := by
  have hxr : hasId st x.id = hasId st r.id := by rw [h]
  by_cases hb : hasId st r.id = true
  · have h2 : hasId (st.map (fun y => if y.id == r.id then r else y)) x.id = true := by
      rw [← upsert_replace hb, h]
      exact hasId_upsert_self st r
    rw [upsert_replace hb, upsert_replace h2, upsert_replace (hxr ▸ hb), List.map_map]
    refine List.map_congr_left ?_
    intro y _
    by_cases hyr : y.id = r.id <;> simp [Function.comp, hyr, h]
  · have hb' : hasId st r.id = false := Bool.eq_false_iff.mpr hb
    have hx : hasId (st ++ [r]) x.id = true :=
      hasId_iff.mpr ⟨r, by simp, h.symm⟩
    rw [upsert_append hb', upsert_replace hx, List.map_append]
    have hst : st.map (fun y => if y.id == x.id then x else y) = st := by
      have hall := not_hasId_forall (i := x.id) (hxr ▸ hb')
      calc st.map (fun y => if y.id == x.id then x else y)
          = st.map id := List.map_congr_left (fun y hy => by simp [hall y hy])
        _ = st := List.map_id st
    rw [hst, upsert_append (hxr ▸ hb')]
    simp [h]

theorem upsert_comm {st : List ChunkRow} {r x : ChunkRow}
    (h : hasId st r.id = true) (hne : x.id ≠ r.id) :
    chunkUpsert (chunkUpsert st r) x = chunkUpsert (chunkUpsert st x) r := by
  by_cases hx : hasId st x.id = true
  · have h1 : hasId (st.map (fun y => if y.id == r.id then r else y)) x.id = true := by
      rw [← upsert_replace h]
      exact hasId_upsert_pres r hx
    have h2 : hasId (st.map (fun y => if y.id == x.id then x else y)) r.id = true := by
      rw [← upsert_replace hx]
      exact hasId_upsert_pres x h
    rw [upsert_replace h, upsert_replace h1, upsert_replace hx, upsert_replace h2,
      List.map_map, List.map_map]
    refine List.map_congr_left ?_
    intro y _
    by_cases hyr : y.id = r.id
    · have hyx : ¬(y.id = x.id) := fun hc => hne (hc ▸ hyr ▸ rfl)
      simp [Function.comp, hyr, hyx, Ne.symm hne]
    · by_cases hyx : y.id = x.id
      · have hxr : ¬(x.id = r.id) := hne
        simp [Function.comp, hyr, hyx, hxr]
      · simp [Function.comp, hyr, hyx]
  · have hx' : hasId st x.id = false := Bool.eq_false_iff.mpr hx
    have h1 : hasId (st.map (fun y => if y.id == r.id then r else y)) x.id = false := by
      refine Bool.eq_false_iff.mpr ?_
      intro hc
      rcases hasId_iff.mp hc with ⟨y, hy, hyid⟩
      rcases List.mem_map.mp hy with ⟨z, hz, hzy⟩
      by_cases hzr : z.id = r.id
      · simp only [hzr, beq_self_eq_true, if_true] at hzy
        rw [← hzy] at hyid
        exact hne hyid.symm
      · simp only [beq_iff_eq, hzr, if_false] at hzy
        rw [← hzy] at hyid
        exact not_hasId_forall hx' z hz hyid
    have h2 : hasId (st ++ [x]) r.id = true := by
      rcases hasId_iff.mp h with ⟨y, hy, hyid⟩
      exact hasId_iff.mpr ⟨y, by simp [hy], hyid⟩
    rw [upsert_replace h, upsert_append h1, upsert_append hx', upsert_replace h2,
      List.map_append]
    have hlast : [x].map (fun y => if y.id == r.id then r else y) = [x] := by
      simp [hne]
    rw [hlast]

theorem hasId_applyRows_pres (rows : List ChunkRow) {i : String} :
    ∀ st, hasId st i = true → hasId (applyRows st rows) i = true := by
  induction rows with
  | nil => intro st h; exact h
  | cons r rows ih => intro st h; exact ih _ (hasId_upsert_pres r h)

theorem applyRows_upsert_comm (rows : List ChunkRow) :
    ∀ st r, hasId st r.id = true →
      applyRows (chunkUpsert st r) rows =
        if rows.any (fun x => x.id == r.id) then applyRows st rows
        else chunkUpsert (applyRows st rows) r := by
  induction rows with
  | nil => intro st r _; simp [applyRows]
  | cons x rows ih =>
    intro st r h
    have hstep : ∀ s, applyRows s (x :: rows) = applyRows (chunkUpsert s x) rows :=
      fun s => rfl
    by_cases hxr : x.id = r.id
    · have hany : ((x :: rows).any fun y => y.id == r.id) = true := by simp [hxr]
      rw [if_pos hany, hstep, hstep, upsert_override hxr]
    · have hany : ((x :: rows).any fun y => y.id == r.id) =
          (rows.any fun y => y.id == r.id) := by simp [hxr]
      rw [hstep, hstep, upsert_comm h hxr, ih _ _ (hasId_upsert_pres x h), hany]

theorem upsert_val {st : List ChunkRow} {x : ChunkRow} :
    ∀ y ∈ chunkUpsert st x, y.id = x.id → y = x := by
  intro y hy hid
  by_cases hb : hasId st x.id = true
  · rw [upsert_replace hb] at hy
    rcases List.mem_map.mp hy with ⟨z, hz, hzy⟩
    by_cases hzx : z.id = x.id
    · simpa [hzx] using hzy.symm
    · simp only [beq_iff_eq, hzx, if_false] at hzy
      rw [← hzy] at hid
      exact absurd hid hzx
  · have hb' : hasId st x.id = false := Bool.eq_false_iff.mpr hb
    rw [upsert_append hb'] at hy
    rcases List.mem_append.mp hy with hy | hy
    · exact absurd hid (not_hasId_forall hb' y hy)
    · simpa using hy

theorem applyRows_val {x : ChunkRow} (rows : List ChunkRow)
    (hrows : ∀ r ∈ rows, r.id ≠ x.id) :
    ∀ s, (∀ y ∈ s, y.id = x.id → y = x) →
      ∀ y ∈ applyRows s rows, y.id = x.id → y = x := by
  induction rows with
  | nil => intro s hs; exact hs
  | cons r rows ih =>
    intro s hs
    have hr : r.id ≠ x.id := hrows r (by simp)
    have hs' : ∀ y ∈ chunkUpsert s r, y.id = x.id → y = x := by
      intro y hy hid
      by_cases hb : hasId s r.id = true
      · rw [upsert_replace hb] at hy
        rcases List.mem_map.mp hy with ⟨z, hz, hzy⟩
        by_cases hzr : z.id = r.id
        · simp only [hzr, beq_self_eq_true, if_true] at hzy
          rw [← hzy] at hid
          exact absurd hid hr
        · simp only [beq_iff_eq, hzr, if_false] at hzy
          exact hs y (hzy ▸ hz) hid
      · rw [upsert_append (Bool.eq_false_iff.mpr hb)] at hy
        rcases List.mem_append.mp hy with hy | hy
        · exact hs y hy hid
        · have hyr : y = r := by simpa using hy
          rw [hyr] at hid
          exact absurd hid hr
    exact ih (fun q hq => hrows q (by simp [hq])) _ hs'

theorem applyRows_idem (rows : List ChunkRow) :
    ∀ st, applyRows (applyRows st rows) rows = applyRows st rows := by
  induction rows with
  | nil => intro st; rfl
  | cons x rows ih =>
    intro st
    show applyRows (chunkUpsert (applyRows (chunkUpsert st x) rows) x) rows =
      applyRows (chunkUpsert st x) rows
    have hBx : hasId (applyRows (chunkUpsert st x) rows) x.id = true :=
      hasId_applyRows_pres rows _ (hasId_upsert_self st x)
    rw [applyRows_upsert_comm rows _ x hBx]
    by_cases hany : (rows.any fun y => y.id == x.id) = true
    · rw [if_pos hany, ih]
    · rw [if_neg hany, ih]
      have hrows : ∀ r ∈ rows, r.id ≠ x.id := by
        intro r hr hc
        exact hany (List.any_eq_true.mpr ⟨r, hr, by simp [hc]⟩)
      have hval : ∀ y ∈ applyRows (chunkUpsert st x) rows, y.id = x.id → y = x :=
        applyRows_val rows hrows _ (@upsert_val st x)
      rw [upsert_replace hBx]
      calc (applyRows (chunkUpsert st x) rows).map (fun y => if y.id == x.id then x else y)
          = (applyRows (chunkUpsert st x) rows).map id := by
            refine List.map_congr_left ?_
            intro y hy
            by_cases hyx : y.id = x.id
            · simp [hyx, (hval y hy hyx).symm]
            · simp [hyx]
        _ = applyRows (chunkUpsert st x) rows := List.map_id _

theorem idsNodup_upsert {st : List ChunkRow} (r : ChunkRow)
    (h : idsNodup st) : idsNodup (chunkUpsert st r) := by
  by_cases hb : hasId st r.id = true
  · have hids : (chunkUpsert st r).map (·.id) = st.map (·.id) := by
      rw [upsert_replace hb, List.map_map]
      refine List.map_congr_left ?_
      intro y _
      by_cases hyr : y.id = r.id <;> simp [Function.comp, hyr]
    unfold idsNodup
    rw [hids]
    exact h
  · have hb' : hasId st r.id = false := Bool.eq_false_iff.mpr hb
    unfold idsNodup
    rw [upsert_append hb', List.map_append]
    simp only [List.map_cons, List.map_nil]
    refine List.Nodup.append h (List.nodup_singleton _) ?_
    intro a ha hb2
    simp only [List.mem_singleton] at hb2
    rcases List.mem_map.mp ha with ⟨y, hy, hyid⟩
    exact not_hasId_forall hb' y hy (hyid.trans hb2)

theorem idsNodup_applyRows (rows : List ChunkRow) :
    ∀ st, idsNodup st → idsNodup (applyRows st rows) := by
  induction rows with
  | nil => intro st h; exact h
  | cons r rows ih => intro st h; exact ih _ (idsNodup_upsert r h)

theorem hasId_applyRows_of_mem {rows : List ChunkRow} {r : ChunkRow}
    (hr : r ∈ rows) : ∀ st, hasId (applyRows st rows) r.id = true := by
  induction rows with
  | nil => cases hr
  | cons x rows ih =>
    intro st
    rcases List.mem_cons.mp hr with rfl | hr'
    · exact hasId_applyRows_pres rows _ (hasId_upsert_self st r)
    · exact ih hr' _

/-! ## Lemmas about the deletion machinery -/

theorem contains_of_mem {l : List String} {a : String} (h : a ∈ l) :
    l.contains a = true := by
  simpa using h

theorem sd_trace_eq (fl : Flags) (db : DB) (doc : Doc) :
    (safe_delete_document fl db doc).trace = sdTrace doc := rfl

theorem sd_ok_eq (fl : Flags) (db : DB) (doc : Doc) :
    (safe_delete_document fl db doc).ok = (fl.vecOk && fl.chunkOk) := rfl

theorem sd_preserves (fl : Flags) (db : DB) (doc : Doc) :
    ((safe_delete_document fl db doc).db.documents = db.documents ∧
     (safe_delete_document fl db doc).db.document_scopes = db.document_scopes ∧
     (safe_delete_document fl db doc).db.users = db.users ∧
     (safe_delete_document fl db doc).db.chats = db.chats ∧
     (safe_delete_document fl db doc).db.projects = db.projects ∧
     (safe_delete_document fl db doc).db.messages = db.messages) := by
  simp only [safe_delete_document]
  split <;> split <;> split <;> exact ⟨rfl, rfl, rfl, rfl, rfl, rfl⟩

theorem sdFold_preserves (fl : String → Flags) (docs : List Doc) :
    ∀ db : DB, ((sdFold fl docs db).db.documents = db.documents ∧
      (sdFold fl docs db).db.document_scopes = db.document_scopes ∧
      (sdFold fl docs db).db.users = db.users ∧
      (sdFold fl docs db).db.chats = db.chats ∧
      (sdFold fl docs db).db.projects = db.projects ∧
      (sdFold fl docs db).db.messages = db.messages) := by
  induction docs with
  | nil => intro db; exact ⟨rfl, rfl, rfl, rfl, rfl, rfl⟩
  | cons doc docs ih =>
    intro db
    have h1 := sd_preserves (fl doc.id) db doc
    have h2 := ih (safe_delete_document (fl doc.id) db doc).db
    simp only [sdFold]
    exact ⟨h2.1.trans h1.1, h2.2.1.trans h1.2.1, h2.2.2.1.trans h1.2.2.1,
      h2.2.2.2.1.trans h1.2.2.2.1, h2.2.2.2.2.1.trans h1.2.2.2.2.1,
      h2.2.2.2.2.2.trans h1.2.2.2.2.2⟩

theorem sdFold_count (fl : String → Flags) (docs : List Doc) :
    ∀ db : DB, (sdFold fl docs db).count =
      docs.countP (fun d => (fl d.id).vecOk && (fl d.id).chunkOk) := by
  induction docs with
  | nil => intro db; rfl
  | cons doc docs ih =>
    intro db
    simp only [sdFold, sd_ok_eq, ih, List.countP_cons]
    by_cases h : ((fl doc.id).vecOk && (fl doc.id).chunkOk) = true
    · simp [h, Nat.add_comm]
    · simp [h, Bool.eq_false_iff.mpr h]

theorem sdFold_trace (fl : String → Flags) (doc : Doc) (docs : List Doc) (db : DB) :
    (sdFold fl (doc :: docs) db).trace =
      sdTrace doc ++ (sdFold fl docs (safe_delete_document (fl doc.id) db doc).db).trace :=
  rfl

theorem scanTrace_append (A B : List DelEv) :
    ∀ s : Seen, scanTrace s (A ++ B) =
      match scanTrace s A with
      | some s1 => scanTrace s1 B
      | none => none := by
  induction A with
  | nil => intro s; rfl
  | cons e A ih =>
    intro s
    simp only [List.cons_append, scanTrace]
    cases seenStep s e with
    | none => rfl
    | some s1 => exact ih s1

theorem scan_sdTrace (doc : Doc) (s : Seen) (h : s.rows = false) :
    scanTrace s (sdTrace doc) = some ⟨doc.id :: s.v, doc.id :: s.c, false⟩ := by
  simp only [sdTrace]
  by_cases hk : doc.s3_key != ""
  · simp [scanTrace, seenStep, h, hk]
  · simp [scanTrace, seenStep, h, hk]

theorem sdFold_scan (fl : String → Flags) (docs : List Doc) :
    ∀ (db : DB) (s : Seen), s.rows = false →
      ∃ s', scanTrace s (sdFold fl docs db).trace = some s' ∧ s'.rows = false ∧
        (∀ x ∈ s.c, x ∈ s'.c) ∧ (∀ d ∈ docs, d.id ∈ s'.c) := by
  induction docs with
  | nil =>
    intro db s h
    exact ⟨s, rfl, h, fun x hx => hx, by simp⟩
  | cons doc docs ih =>
    intro db s h
    rw [sdFold_trace, scanTrace_append, scan_sdTrace doc s h]
    obtain ⟨s', h1, h2, h3, h4⟩ :=
      ih (safe_delete_document (fl doc.id) db doc).db ⟨doc.id :: s.v, doc.id :: s.c, false⟩ rfl
    refine ⟨s', h1, h2, ?_, ?_⟩
    · intro x hx
      exact h3 x (by simp [hx])
    · intro d hd
      rcases List.mem_cons.mp hd with rfl | hd'

      · exact h3 d.id (by simp)
      · exact h4 d hd'

theorem sdFold_succIds (fl : String → Flags) (docs : List Doc) :
    ∀ (db : DB) (i : String), i ∈ (sdFold fl docs db).succIds → ∃ d ∈ docs, d.id = i := by
  induction docs with
  | nil => intro db i h; cases h
  | cons doc docs ih =>
    intro db i h
    simp only [sdFold, List.mem_append] at h
    rcases h with h | h
    · by_cases hok : (safe_delete_document (fl doc.id) db doc).ok = true
      · simp only [hok, if_true, List.mem_singleton] at h
        exact ⟨doc, by simp, h.symm⟩
      · simp [Bool.eq_false_iff.mpr hok] at h
    · obtain ⟨d, hd, hdi⟩ := ih _ i h
      exact ⟨d, by simp [hd], hdi⟩

theorem scanTrace_docRows (docs : List Doc) :
    ∀ s : Seen, (∀ d ∈ docs, d.id ∈ s.c) →
      ∃ s', scanTrace s (docs.map (fun d => DelEv.docRow d.id)) = some s' := by
  induction docs with
  | nil => intro s _; exact ⟨s, rfl⟩
  | cons d docs ih =>
    intro s h
    have hc : s.c.contains d.id = true := contains_of_mem (h d (by simp))
    simp only [List.map_cons, scanTrace, seenStep, hc, if_true]
    exact ih ⟨s.v, s.c, true⟩ (fun d2 hd2 => h d2 (by simp [hd2]))

theorem projChatFold_preserves (fl : String → Flags) (chats : List ChatRow) :
    ∀ db : DB, ((projChatFold fl chats db).db.documents = db.documents ∧
      (projChatFold fl chats db).db.users = db.users ∧
      (projChatFold fl chats db).db.chats = db.chats ∧
      (projChatFold fl chats db).db.projects = db.projects) := by
  induction chats with
  | nil => intro db; exact ⟨rfl, rfl, rfl, rfl⟩
  | cons chat rest ih =>
    intro db
    simp only [projChatFold]
    have hsd := sdFold_preserves fl
      (db.documents.filter (fun d => (chatDocIds db chat.id).contains d.id)) db
    have h2 := ih { (sdFold fl
        (db.documents.filter (fun d => (chatDocIds db chat.id).contains d.id)) db).db with
      document_scopes := (sdFold fl
        (db.documents.filter (fun d => (chatDocIds db chat.id).contains d.id)) db).db.document_scopes.filter
          (fun l => !(linkMatches "chat" chat.id l)),
      messages := (sdFold fl
        (db.documents.filter (fun d => (chatDocIds db chat.id).contains d.id)) db).db.messages.filter
          (fun m => m.chat_id != chat.id) }
    exact ⟨h2.1.trans hsd.1, h2.2.1.trans hsd.2.2.1,
      h2.2.2.1.trans hsd.2.2.2.1, h2.2.2.2.trans hsd.2.2.2.2.1⟩

theorem projChatFold_scan (fl : String → Flags) (chats : List ChatRow) :
    ∀ (db : DB) (s : Seen), s.rows = false →
      ∃ s', scanTrace s (projChatFold fl chats db).trace = some s' ∧ s'.rows = false ∧
        (∀ x ∈ s.c, x ∈ s'.c) ∧
        (∀ i ∈ (projChatFold fl chats db).succIds, i ∈ s'.c) := by
  induction chats with
  | nil =>
    intro db s h
    exact ⟨s, rfl, h, fun x hx => hx, by intro i hi; cases hi⟩
  | cons chat rest ih =>
    intro db s h
    simp only [projChatFold]
    rw [scanTrace_append]
    obtain ⟨s1, h1, h1r, h1mono, h1docs⟩ := sdFold_scan fl
      (db.documents.filter (fun d => (chatDocIds db chat.id).contains d.id)) db s h
    rw [h1]
    obtain ⟨s2, h2, h2r, h2mono, h2succ⟩ := ih _ s1 h1r
    refine ⟨s2, h2, h2r, fun x hx => h2mono x (h1mono x hx), ?_⟩
    intro i hi
    rcases List.mem_append.mp hi with hi | hi
    · obtain ⟨d, hd, rfl⟩ := sdFold_succIds fl _ db i hi
      exact h2mono _ (h1docs d hd)
    · exact h2succ i hi

theorem find?_append_of_none {α : Type} {p : α → Bool} {l1 : List α}
    (h : l1.find? p = none) (l2 : List α) : (l1 ++ l2).find? p = l2.find? p := by
  induction l1 with
  | nil => rfl
  | cons x xs ih =>
    have hx : p x = false := by
      cases hpx : p x
      · rfl
      · rw [List.find?_cons_of_pos _ hpx] at h
        cases h
    have h' : xs.find? p = none := by
      rwa [List.find?_cons_of_neg _ (by simp [hx])] at h
    rw [List.cons_append, List.find?_cons_of_neg _ (by simp [hx]), ih h']

theorem delete_chat_documents_nonempty (fl : String → Flags) (db : DB)
    (chat_id user_id : String) (db' : DB) (tr : List DelEv)
    (hemp : (chatDocIds db chat_id).isEmpty = false)
    (heq : delete_chat fl db chat_id user_id = some (db', tr)) :
    db'.documents =
      (sdFold fl (db.documents.filter
        (fun d => (chatDocIds db chat_id).contains d.id)) db).db.documents.filter
        (fun d => !(chatDocIds db chat_id).contains d.id) := by
  unfold delete_chat at heq
  cases hfind : db.chats.find? (fun c => c.id == chat_id && c.user_id == user_id) with
  | none => rw [hfind] at heq; cases heq
  | some c =>
    rw [hfind] at heq
    simp only [Option.some.injEq, Prod.mk.injEq] at heq
    obtain ⟨hdb, _⟩ := heq
    rw [← hdb]
    simp only [hemp, Bool.false_eq_true, if_false]
    split <;> rfl

theorem updateFirst_status_ids (did : String) (l : List Doc) :
    (updateFirst (fun d => d.id == did)
      (fun d => { d with status := DocStatus.deleting }) l).map (·.id) = l.map (·.id) := by
  induction l with
  | nil => rfl
  | cons x xs ih =>
    simp only [updateFirst]
    by_cases hx : (x.id == did) = true
    · rw [if_pos hx]
      simp
    · rw [if_neg hx]
      simp [ih]

theorem eraseFirst_no_key (did : String) : ∀ l : List Doc,
    (l.map (·.id)).Nodup → ∀ d ∈ eraseFirst (fun x => x.id == did) l, d.id ≠ did := by
  intro l
  induction l with
  | nil => intro _ d hd; cases hd
  | cons x xs ih =>
    intro hnd d hd
    rw [List.map_cons] at hnd
    have hnd' := List.nodup_cons.mp hnd
    simp only [eraseFirst] at hd
    by_cases hx : (x.id == did) = true
    · rw [if_pos hx] at hd
      have hx' : x.id = did := by simpa using hx
      intro hc
      exact hnd'.1 (hx' ▸ hc ▸ List.mem_map.mpr ⟨d, hd, rfl⟩)
    · rw [if_neg hx] at hd
      rcases List.mem_cons.mp hd with rfl | hd'
      · simpa using hx
      · exact ih hnd'.2 d hd'

theorem mem_updateFirst_status (did : String) : ∀ l : List Doc,
    (∃ x ∈ l, x.id = did) →
      ∃ d ∈ updateFirst (fun d => d.id == did)
          (fun d => { d with status := DocStatus.deleting }) l,
        d.id = did ∧ d.status = DocStatus.deleting := by
  intro l
  induction l with
  | nil => rintro ⟨x, hx, _⟩; cases hx
  | cons x xs ih =>
    rintro ⟨y, hy, hyid⟩
    simp only [updateFirst]
    by_cases hx : (x.id == did) = true
    · rw [if_pos hx]
      exact ⟨{ x with status := DocStatus.deleting }, by simp, by simpa using hx, rfl⟩
    · rw [if_neg hx]
      rcases List.mem_cons.mp hy with rfl | hy'
      · exact absurd (by simp [hyid]) hx
      · obtain ⟨d, hd, hdid, hdst⟩ := ih ⟨y, hy', hyid⟩
        exact ⟨d, by simp [hd], hdid, hdst⟩

/-- Membership in the dedup-of-map-of-filter shape used by the scope
resolver. -/
theorem mem_resolve_aux {p : ScopeLink → Bool} {links : List ScopeLink} {d : String} :
    (d ∈ ((links.filter p).map (·.document_id)).dedup ↔
      ∃ l ∈ links, p l = true ∧ l.document_id = d) := by
  simp only [List.mem_dedup, List.mem_map, List.mem_filter]
  exact ⟨fun ⟨l, ⟨h1, h2⟩, h3⟩ => ⟨l, h1, h2, h3⟩, fun ⟨l, h1, h2, h3⟩ => ⟨l, ⟨h1, h2⟩, h3⟩⟩

theorem linkMatches_iff {t s : String} {l : ScopeLink} :
    (linkMatches t s l = true ↔ l.scope_type = t ∧ l.scope_id = s) := by
  simp [linkMatches]

theorem resolve_project_eq (links : List ScopeLink) (scope_id : String)
    (include_project : Bool) (project_id : Option String) :
    get_document_ids_for_scope links "project" scope_id include_project project_id =
      ((links.filter (linkMatches "project" scope_id)).map (·.document_id)).dedup := by
  simp [get_document_ids_for_scope]

theorem resolve_chat_plain_eq (links : List ScopeLink) (scope_id : String) :
    (∀ pid, get_document_ids_for_scope links "chat" scope_id false pid =
      ((links.filter (linkMatches "chat" scope_id)).map (·.document_id)).dedup) ∧
    get_document_ids_for_scope links "chat" scope_id true none =
      ((links.filter (linkMatches "chat" scope_id)).map (·.document_id)).dedup := by
  constructor
  · intro pid
    cases pid <;> simp [get_document_ids_for_scope]
  · simp [get_document_ids_for_scope]

theorem resolve_chat_union_eq (links : List ScopeLink) (scope_id pid : String) :
    get_document_ids_for_scope links "chat" scope_id true (some pid) =
      ((links.filter (fun l =>
          linkMatches "chat" scope_id l || linkMatches "project" pid l)).map
        (·.document_id)).dedup := by
  simp [get_document_ids_for_scope]

/-- **C6.** The scope resolver is a pure function of the link state with the
advertised membership behaviour: project scope gives exactly the
project-linked ids; chat scope without inheritance (or without a parent
project id) gives exactly the chat-linked ids; chat scope with inheritance
and a parent project gives exactly the union, with duplicates collapsed
(the returned list has no duplicates). -/
theorem C6_scope_resolver (links : List ScopeLink) (scope_id : String)
    (include_project : Bool) (project_id : Option String) (d : String) :
    ((d ∈ get_document_ids_for_scope links "project" scope_id include_project project_id ↔
        ∃ l ∈ links, l.document_id = d ∧ l.scope_type = "project" ∧ l.scope_id = scope_id) ∧
     ((include_project = false ∨ project_id = none) →
        (d ∈ get_document_ids_for_scope links "chat" scope_id include_project project_id ↔
          ∃ l ∈ links, l.document_id = d ∧ l.scope_type = "chat" ∧ l.scope_id = scope_id)) ∧
     (∀ pid, d ∈ get_document_ids_for_scope links "chat" scope_id true (some pid) ↔
        (∃ l ∈ links, l.document_id = d ∧ l.scope_type = "chat" ∧ l.scope_id = scope_id) ∨
        (∃ l ∈ links, l.document_id = d ∧ l.scope_type = "project" ∧ l.scope_id = pid)) ∧
     (get_document_ids_for_scope links "chat" scope_id include_project project_id).Nodup ∧
     (get_document_ids_for_scope links "project" scope_id include_project project_id).Nodup) := by
  refine ⟨?_, ?_, ?_, ?_, ?_⟩
  · rw [resolve_project_eq, mem_resolve_aux]
    exact ⟨fun ⟨l, h1, h2, h3⟩ => ⟨l, h1, h3, linkMatches_iff.mp h2⟩,
      fun ⟨l, h1, h3, h2⟩ => ⟨l, h1, linkMatches_iff.mpr h2, h3⟩⟩
  · intro hcase
    have heq : get_document_ids_for_scope links "chat" scope_id include_project project_id =
        ((links.filter (linkMatches "chat" scope_id)).map (·.document_id)).dedup := by
      rcases hcase with rfl | rfl
      · exact (resolve_chat_plain_eq links scope_id).1 project_id
      · cases include_project
        · exact (resolve_chat_plain_eq links scope_id).1 none
        · exact (resolve_chat_plain_eq links scope_id).2
    rw [heq, mem_resolve_aux]
    exact ⟨fun ⟨l, h1, h2, h3⟩ => ⟨l, h1, h3, linkMatches_iff.mp h2⟩,
      fun ⟨l, h1, h3, h2⟩ => ⟨l, h1, linkMatches_iff.mpr h2, h3⟩⟩
  · intro pid
    rw [resolve_chat_union_eq, mem_resolve_aux]
    constructor
    · rintro ⟨l, hl, hor, rfl⟩
      rcases Bool.or_eq_true _ _ |>.mp hor with h | h
      · exact Or.inl ⟨l, hl, rfl, linkMatches_iff.mp h⟩
      · exact Or.inr ⟨l, hl, rfl, linkMatches_iff.mp h⟩
    · rintro (⟨l, hl, rfl, h⟩ | ⟨l, hl, rfl, h⟩)
      · exact ⟨l, hl, Bool.or_eq_true _ _ |>.mpr (Or.inl (linkMatches_iff.mpr h)), rfl⟩
      · exact ⟨l, hl, Bool.or_eq_true _ _ |>.mpr (Or.inr (linkMatches_iff.mpr h)), rfl⟩
  · cases include_project
    · rw [(resolve_chat_plain_eq links scope_id).1 project_id]
      exact List.nodup_dedup _
    · cases project_id
      · rw [(resolve_chat_plain_eq links scope_id).2]
        exact List.nodup_dedup _
      · rw [resolve_chat_union_eq]
        exact List.nodup_dedup _
  · rw [resolve_project_eq]
    exact List.nodup_dedup _

/-- Witness for C6 at a concrete link state: document `A` linked only to
project `P`, document `B` linked only to chat `C`; resolving chat `C`
without inheritance sees exactly `B`. -/
theorem C6_witness :
    ((false = false ∨ (none : Option String) = none) ∧
     ("B" ∈ get_document_ids_for_scope
        [⟨"A", "project", "P"⟩, ⟨"B", "chat", "C"⟩] "chat" "C" false none ↔
      ∃ l ∈ [ScopeLink.mk "A" "project" "P", ScopeLink.mk "B" "chat" "C"],
        l.document_id = "B" ∧ l.scope_type = "chat" ∧ l.scope_id = "C")) :=
  ⟨Or.inl rfl,
   (C6_scope_resolver [⟨"A", "project", "P"⟩, ⟨"B", "chat", "C"⟩] "C" false none
     "B").2.1 (Or.inl rfl)⟩

/-- **C7.** For every query embedding and every `top_k`, `search_chunks`
with an empty visible-document-id list returns the empty result, for every
possible state of the underlying vector index — i.e. without the index
being consulted; this is a normal (non-error) return. -/
theorem C7_empty_scope_search (vsearch : VectorIndex) (query_vector : List Int)
    (top_k : Nat) :
    search_chunks vsearch query_vector [] top_k = ⟨[], [], []⟩ := rfl

/-- **C10.** For every query vector, document-id list and `top_k`, the
result of `search_chunks` has contexts, sources and scores of equal length,
at most `top_k` entries, and only non-empty context strings: hits with
empty or missing text are dropped from all three lists together. -/
theorem C10_search_result_shape (vsearch : VectorIndex) (query_vector : List Int)
    (document_ids : List String) (top_k : Nat) :
    ((search_chunks vsearch query_vector document_ids top_k).contexts.length =
        (search_chunks vsearch query_vector document_ids top_k).sources.length ∧
     (search_chunks vsearch query_vector document_ids top_k).contexts.length =
        (search_chunks vsearch query_vector document_ids top_k).scores.length ∧
     (search_chunks vsearch query_vector document_ids top_k).contexts.length ≤ top_k ∧
     ∀ c ∈ (search_chunks vsearch query_vector document_ids top_k).contexts, c ≠ "") := by
  unfold search_chunks
  by_cases h : document_ids.isEmpty
  · simp [h]
  · simp only [h, if_false, Bool.false_eq_true]
    refine ⟨by simp, by simp, ?_, ?_⟩
    · rw [List.length_map]
      calc (((vsearch query_vector document_ids (top_k * 10)).take top_k).filter
              (fun r => r.text.getD "" != "")).length
          ≤ ((vsearch query_vector document_ids (top_k * 10)).take top_k).length :=
            List.length_filter_le _ _
        _ ≤ top_k := List.length_take_le _ _
    · intro c hc
      simp only [List.mem_map, List.mem_filter] at hc
      obtain ⟨r, ⟨_, hr⟩, rfl⟩ := hc
      simpa using hr

/-- Witness for C10 at a concrete index state: the one returned context is
non-empty. -/
theorem C10_witness :
    ("t" ∈ (search_chunks (fun _ _ _ => [⟨some "t", some 1, some "f", some 5⟩])
        [0] ["d"] 1).contexts ∧ "t" ≠ "") :=
  ⟨by decide,
   (C10_search_result_shape (fun _ _ _ => [⟨some "t", some 1, some "f", some 5⟩])
     [0] ["d"] 1).2.2.2 "t" (by decide)⟩

/-- **C5.** Chunk ids are a deterministic function of
`(document_id, chunk_index)` (`generate_chunk_id` is a pure function of
exactly those arguments) and `save_chunks` upserts by that id, so running
`save_chunks` twice with the same arguments leaves the chunk collection
exactly as after the first run, keeps chunk ids duplicate-free, and yields
a row for every submitted `(chunk_data, embedding)` pair's id. -/
theorem C5_idempotent_chunk_ids (uuid5 : String → String) (document_id : String)
    (chunks_data : List ChunkData) (embeddings : List (List Int))
    (st : List ChunkRow) (hst : idsNodup st) :
    (save_chunks uuid5 document_id chunks_data embeddings
        (save_chunks uuid5 document_id chunks_data embeddings st) =
      save_chunks uuid5 document_id chunks_data embeddings st ∧
     idsNodup (save_chunks uuid5 document_id chunks_data embeddings st) ∧
     ∀ p ∈ chunks_data.zip embeddings,
       hasId (save_chunks uuid5 document_id chunks_data embeddings st)
         (generate_chunk_id uuid5 document_id p.1.chunk_index) = true) := by
  unfold save_chunks
  by_cases h : chunks_data.isEmpty
  · refine ⟨by simp [h], by simpa [h] using hst, ?_⟩
    intro p hp
    rw [List.isEmpty_iff] at h
    subst h
    simp at hp
  · simp only [h, if_false, Bool.false_eq_true]
    refine ⟨applyRows_idem _ _, idsNodup_applyRows _ _ hst, ?_⟩
    intro p hp
    have hmem : chunkRowOf uuid5 document_id p ∈
        (chunks_data.zip embeddings).map (chunkRowOf uuid5 document_id) :=
      List.mem_map.mpr ⟨p, hp, rfl⟩
    exact hasId_applyRows_of_mem hmem st

/-- Witness for C5 at a concrete ingestion: a two-chunk document saved into
an empty chunks collection. -/
theorem C5_witness :
    (idsNodup ([] : List ChunkRow) ∧
     save_chunks (fun s => s) "doc_1"
        [⟨"alpha", 1, 0⟩, ⟨"beta", 2, 1⟩] [[1], [2]]
        (save_chunks (fun s => s) "doc_1"
          [⟨"alpha", 1, 0⟩, ⟨"beta", 2, 1⟩] [[1], [2]] []) =
      save_chunks (fun s => s) "doc_1"
        [⟨"alpha", 1, 0⟩, ⟨"beta", 2, 1⟩] [[1], [2]] []) :=
  ⟨by decide,
   (C5_idempotent_chunk_ids (fun s => s) "doc_1"
      [⟨"alpha", 1, 0⟩, ⟨"beta", 2, 1⟩] [[1], [2]] [] (by decide)).1⟩

theorem mem_of_contains {l : List String} {a : String} (h : l.contains a = true) :
    a ∈ l := by
  simpa using h

/-- **C2 (amended).** Deletion-order invariant, as the code implements it:
in the batched chat/project deletion paths every chunk delete for a
document is preceded by a vector-store delete for it, every blob delete
and every metadata-row delete by a chunk delete for it, and all
vector/chunk/blob deletes precede the first metadata-row delete (the
`scanTrace` checker); the single-document delete path obeys the same
chunks → blob → metadata order but issues no vector-store delete at all
(the `scanSingle` checker rejects any vector delete). -/
theorem C2_amended_deletion_order (fl : String → Flags) (db : DB)
    (chat_id project_id user_id : String) (chunksOk s3Ok : Bool)
    (document_id scope_type scope_id : String) :
    ((scanTrace ⟨[], [], false⟩ (chatTrace fl db chat_id user_id)).isSome = true ∧
     (scanTrace ⟨[], [], false⟩ (projectTrace fl db project_id user_id)).isSome = true ∧
     (scanSingle ⟨[], [], false⟩
        (routeTrace chunksOk s3Ok db document_id scope_type scope_id user_id)).isSome =
       true) := by
  refine ⟨?_, ?_, ?_⟩
  · unfold chatTrace delete_chat
    cases hfind : db.chats.find? (fun c => c.id == chat_id && c.user_id == user_id) with
    | none => simp [scanTrace]
    | some c =>
      simp only [hfind]
      rw [scanTrace_append]
      obtain ⟨s1, h1, h1r, h1mono, h1docs⟩ := sdFold_scan fl
        (db.documents.filter (fun d => (chatDocIds db chat_id).contains d.id)) db
        ⟨[], [], false⟩ rfl
      rw [h1]
      dsimp only
      rw [(sdFold_preserves fl
        (db.documents.filter (fun d => (chatDocIds db chat_id).contains d.id)) db).1]
      obtain ⟨s2, h2⟩ := scanTrace_docRows
        (db.documents.filter (fun d => (chatDocIds db chat_id).contains d.id)) s1 h1docs
      rw [h2]
      exact rfl
  · unfold projectTrace delete_project
    cases hfind : db.projects.find? (fun p => p.id == project_id && p.user_id == user_id) with
    | none => simp [scanTrace]
    | some p =>
      simp only [hfind]
      set docsP := db.documents.filter (fun d =>
        ((db.document_scopes.filter (linkMatches "project" project_id)).map
          (·.document_id)).contains d.id) with hdocsP
      set acc1 := sdFold fl docsP db with hacc1
      set chatsP := acc1.db.chats.filter (fun c => c.project_id == some project_id)
        with hchatsP
      set acc2 := projChatFold fl chatsP acc1.db with hacc2
      rw [scanTrace_append, scanTrace_append]
      obtain ⟨s1, h1, h1r, h1mono, h1docs⟩ := sdFold_scan fl docsP db ⟨[], [], false⟩ rfl
      rw [← hacc1] at h1
      rw [h1]
      dsimp only
      obtain ⟨s2, h2, h2r, h2mono, h2succ⟩ := projChatFold_scan fl chatsP acc1.db s1 h1r
      rw [← hacc2] at h2
      rw [h2]
      dsimp only
      have hside : ∀ d ∈ acc2.db.documents.filter
          (fun d => (acc1.succIds ++ acc2.succIds).contains d.id), d.id ∈ s2.c := by
        intro d hd
        have hd2 := (List.mem_filter.mp hd).2
        have hmem := mem_of_contains hd2
        rcases List.mem_append.mp hmem with hin | hin
        · rw [hacc1] at hin
          obtain ⟨d0, hd0, hid⟩ := sdFold_succIds fl docsP db _ hin
          rw [← hid]
          exact h2mono _ (h1docs d0 hd0)
        · rw [hacc2] at hin
          exact h2succ _ hin
      obtain ⟨s3, h3⟩ := scanTrace_docRows
        (acc2.db.documents.filter
          (fun d => (acc1.succIds ++ acc2.succIds).contains d.id)) s2 hside
      rw [h3]
      exact rfl
  · unfold routeTrace delete_document_route
    cases hfind : db.documents.find? (fun d => d.id == document_id) with
    | none => simp [scanSingle]
    | some doc =>
      simp only [hfind]
      by_cases hv : validate_scope_ownership db scope_type scope_id user_id
      · by_cases hl : db.document_scopes.any (linkTripleMatches document_id scope_type scope_id)
        · by_cases hrem : (List.countP (fun l => l.document_id == document_id)
              (eraseFirst (linkTripleMatches document_id scope_type scope_id)
                db.document_scopes) == 0) = true
          · by_cases hok : chunksOk = true
            · simp [hv, hl, hrem, hok, scanSingle, singleStep]
            · simp [hv, hl, hrem, hok, scanSingle, singleStep]
          · simp [hv, hl, hrem, scanSingle]
        · simp [hv, hl, scanSingle]
      · simp [hv, scanSingle]

/-- **C2 (counterexample to the claim as stated).** The single-document
delete path fully purges `d1` (status `deleted`, Document row gone) while
issuing only chunk → blob → metadata deletes: no vector-store delete is
issued at all, and the legacy vector row for `d1` survives the purge —
so the purge does not begin with "the vector embeddings for the
document_id". -/
theorem C2_counterexample :
    (delete_document_route true true dbChatOnly "d1" "chat" "c1" "u1" =
      some ({ documents := [], document_scopes := [], chunks := [],
              vectors := [⟨"d1"⟩], chats := [⟨"c1", "u1", none⟩],
              projects := [], users := [⟨"u1", 1⟩], messages := [], blobs := [] },
            [DelEv.chunks "d1", DelEv.blob "d1" "k1", DelEv.docRow "d1"],
            DelStatus.deleted) ∧
     DelEv.vectors "d1" ∉
       [DelEv.chunks "d1", DelEv.blob "d1" "k1", DelEv.docRow "d1"]) := by
  exact ⟨by decide, by decide⟩

/-- **C1 (amended).** The single-document delete path preserves orphan
non-deletion: when links remain after the unlink it reports `unlinked` and
leaves the documents and chunks collections untouched, and it purges
(removes the row and the document's chunks) exactly when the remaining-link
count is 0 and cleanup succeeds.  (The batched chat/project deletion does
*not* respect remaining links — see the counterexample.) -/
theorem C1_amended_orphan_non_deletion (chunksOk s3Ok : Bool) (db : DB)
    (document_id scope_type scope_id user_id : String)
    (hnodup : (db.documents.map (·.id)).Nodup)
    (db' : DB) (tr : List DelEv) (st : DelStatus)
    (heq : delete_document_route chunksOk s3Ok db document_id scope_type scope_id user_id =
      some (db', tr, st)) :
    ((db'.document_scopes.countP (fun l => l.document_id == document_id) ≠ 0 →
        st = DelStatus.unlinked ∧ db'.documents = db.documents ∧ db'.chunks = db.chunks) ∧
     (db'.document_scopes.countP (fun l => l.document_id == document_id) = 0 →
        chunksOk = true →
        st = DelStatus.deleted ∧ (∀ d ∈ db'.documents, d.id ≠ document_id) ∧
        ∀ c ∈ db'.chunks, c.document_id ≠ document_id)) := by
  unfold delete_document_route at heq
  cases hfind : db.documents.find? (fun d => d.id == document_id) with
  | none => rw [hfind] at heq; cases heq
  | some doc =>
    rw [hfind] at heq
    by_cases hv : validate_scope_ownership db scope_type scope_id user_id
    · by_cases hl :
        db.document_scopes.any (linkTripleMatches document_id scope_type scope_id)
      · simp only [hv, hl, Bool.not_true, Bool.false_eq_true, if_false] at heq
        by_cases hrem : (List.countP (fun l => l.document_id == document_id)
            (eraseFirst (linkTripleMatches document_id scope_type scope_id)
              db.document_scopes) == 0) = true
        · rw [if_pos hrem] at heq
          by_cases hok : chunksOk = true
          · rw [if_pos hok] at heq
            simp only [Option.some.injEq, Prod.mk.injEq] at heq
            obtain ⟨hdb, htr, hst⟩ := heq
            constructor
            · intro hcnt
              exfalso
              apply hcnt
              rw [← hdb]
              by_cases hs3 : s3Ok = true <;>
                simpa [hs3] using (by simpa using hrem :
                  List.countP (fun l => l.document_id == document_id)
                    (eraseFirst (linkTripleMatches document_id scope_type scope_id)
                      db.document_scopes) = 0)
            · intro _ _
              refine ⟨hst.symm, ?_, ?_⟩
              · intro d hd
                rw [← hdb] at hd
                have hd2 : d ∈ eraseFirst (fun x => x.id == document_id)
                    (updateFirst (fun x => x.id == document_id)
                      (fun x => { x with status := DocStatus.deleting }) db.documents) := by
                  by_cases hs3 : s3Ok = true
                  · simpa [hs3] using hd
                  · simpa [hs3] using hd
                refine eraseFirst_no_key document_id _ ?_ d hd2
                rw [updateFirst_status_ids]
                exact hnodup
              · intro c hc
                rw [← hdb] at hc
                have hc2 : c ∈ db.chunks.filter
                    (fun x => x.document_id != document_id) := by
                  by_cases hs3 : s3Ok = true
                  · simpa [hs3] using hc
                  · simpa [hs3] using hc
                have := (List.mem_filter.mp hc2).2
                simpa using this
          · rw [if_neg hok] at heq
            simp only [Option.some.injEq, Prod.mk.injEq] at heq
            obtain ⟨hdb, htr, hst⟩ := heq
            constructor
            · intro hcnt
              exfalso
              apply hcnt
              rw [← hdb]
              simpa using hrem
            · intro _ hok2
              exact absurd hok2 hok
        · rw [if_neg hrem] at heq
          simp only [Option.some.injEq, Prod.mk.injEq] at heq
          obtain ⟨hdb, htr, hst⟩ := heq
          constructor
          · intro _
            exact ⟨hst.symm, by rw [← hdb], by rw [← hdb]⟩
          · intro hcnt _
            exfalso
            apply hrem
            rw [← hdb] at hcnt
            simpa using hcnt
      · simp [hv, hl] at heq
    · simp [hv] at heq

/-- **C1 (counterexample to the claim as stated).** In the batched chat
deletion, document `d1` is linked to both chat `c1` and project `p1`;
deleting the chat leaves the project link in place (remaining-link count
is 1) yet fully purges the document: its Document row is gone and its
chunks are deleted. -/
theorem C1_counterexample :
    (delete_chat (fun _ => ⟨true, true, true⟩) dbChatAndProject "c1" "u1" =
      some ({ documents := [], document_scopes := [⟨"d1", "project", "p1"⟩],
              chunks := [], vectors := [], chats := [],
              projects := [⟨"p1", "u1"⟩], users := [⟨"u1", 0⟩], messages := [],
              blobs := [] },
            [DelEv.vectors "d1", DelEv.chunks "d1", DelEv.blob "d1" "k1",
             DelEv.docRow "d1"]) ∧
     List.countP (fun l => l.document_id == "d1")
       [ScopeLink.mk "d1" "project" "p1"] = 1) := by
  exact ⟨by decide, by decide⟩

/-- Witness for the amended C1 at a concrete input: unlinking `d1` from
chat `c1` while the project link remains reports `unlinked` and leaves
documents and chunks untouched. -/
theorem C1_witness :
    ((dbChatAndProject.documents.map (·.id)).Nodup ∧
     (DelStatus.unlinked = DelStatus.unlinked ∧
      ({ dbChatAndProject with
          document_scopes := [⟨"d1", "project", "p1"⟩] } : DB).documents =
        dbChatAndProject.documents ∧
      ({ dbChatAndProject with
          document_scopes := [⟨"d1", "project", "p1"⟩] } : DB).chunks =
        dbChatAndProject.chunks)) :=
  ⟨by decide,
   (C1_amended_orphan_non_deletion true true dbChatAndProject "d1" "chat" "c1" "u1"
      (by decide)
      { dbChatAndProject with document_scopes := [⟨"d1", "project", "p1"⟩] }
      [] DelStatus.unlinked (by decide)).1 (by decide)⟩

/-- **C3 (amended).** Counter behaviour as the code implements it: the
single-document delete path never changes the users collection, even when
it fully purges the document; chat deletion decrements the owner's
active-document counter by exactly the number of chat-linked documents
whose vector-and-chunk deletion succeeded (guarded against underflow by
the `$gte` filter). -/
theorem C3_amended_counter_decrement :
    ((∀ (chunksOk s3Ok : Bool) (db : DB) (document_id scope_type scope_id user_id : String)
        (db' : DB) (tr : List DelEv) (st : DelStatus),
        delete_document_route chunksOk s3Ok db document_id scope_type scope_id user_id =
          some (db', tr, st) →
        db'.users = db.users) ∧
     (∀ (fl : String → Flags) (db : DB) (chat_id user_id : String) (u : UserRow)
        (db' : DB) (tr : List DelEv),
        db.users = [u] →
        u.id = user_id →
        0 < (db.documents.filter
              (fun d => (chatDocIds db chat_id).contains d.id)).countP
              (fun d => (fl d.id).vecOk && (fl d.id).chunkOk) →
        ((db.documents.filter
            (fun d => (chatDocIds db chat_id).contains d.id)).countP
            (fun d => (fl d.id).vecOk && (fl d.id).chunkOk) : Int) ≤
          u.active_documents_count →
        delete_chat fl db chat_id user_id = some (db', tr) →
        db'.users = [{ u with active_documents_count := u.active_documents_count -
          ((db.documents.filter
              (fun d => (chatDocIds db chat_id).contains d.id)).countP
              (fun d => (fl d.id).vecOk && (fl d.id).chunkOk) : Int) }])) := by
  constructor
  · intro chunksOk s3Ok db document_id scope_type scope_id user_id db' tr st heq
    unfold delete_document_route at heq
    cases hfind : db.documents.find? (fun d => d.id == document_id) with
    | none => rw [hfind] at heq; cases heq
    | some doc =>
      rw [hfind] at heq
      by_cases hv : validate_scope_ownership db scope_type scope_id user_id
      · by_cases hl :
          db.document_scopes.any (linkTripleMatches document_id scope_type scope_id)
        · simp only [hv, hl, Bool.not_true, Bool.false_eq_true, if_false] at heq
          by_cases hrem : (List.countP (fun l => l.document_id == document_id)
              (eraseFirst (linkTripleMatches document_id scope_type scope_id)
                db.document_scopes) == 0) = true
          · rw [if_pos hrem] at heq
            by_cases hok : chunksOk = true
            · rw [if_pos hok] at heq
              simp only [Option.some.injEq, Prod.mk.injEq] at heq
              obtain ⟨hdb, _, _⟩ := heq
              rw [← hdb]
              by_cases hs3 : s3Ok = true
              · simp [hs3]
              · simp [hs3]
            · rw [if_neg hok] at heq
              simp only [Option.some.injEq, Prod.mk.injEq] at heq
              obtain ⟨hdb, _, _⟩ := heq
              rw [← hdb]
          · rw [if_neg hrem] at heq
            simp only [Option.some.injEq, Prod.mk.injEq] at heq
            obtain ⟨hdb, _, _⟩ := heq
            rw [← hdb]
        · simp [hv, hl] at heq
      · simp [hv] at heq
  · intro fl db chat_id user_id u db' tr hu huid hn hcnt heq
    unfold delete_chat at heq
    cases hfind : db.chats.find? (fun c => c.id == chat_id && c.user_id == user_id) with
    | none => rw [hfind] at heq; cases heq
    | some c =>
      rw [hfind] at heq
      simp only [Option.some.injEq, Prod.mk.injEq] at heq
      obtain ⟨hdb, _⟩ := heq
      rw [← hdb]
      have hcount : (sdFold fl (db.documents.filter
          (fun d => (chatDocIds db chat_id).contains d.id)) db).count =
          (db.documents.filter
            (fun d => (chatDocIds db chat_id).contains d.id)).countP
            (fun d => (fl d.id).vecOk && (fl d.id).chunkOk) :=
        sdFold_count fl _ db
      have husers : (sdFold fl (db.documents.filter
          (fun d => (chatDocIds db chat_id).contains d.id)) db).db.users = db.users :=
        (sdFold_preserves fl _ db).2.2.1
      rw [hcount]
      rw [if_pos hn]
      show decrementActiveDocs user_id _ _ = _
      have hu2 : (if (chatDocIds db chat_id).isEmpty = true then
          (sdFold fl (db.documents.filter
            (fun d => (chatDocIds db chat_id).contains d.id)) db).db
        else { (sdFold fl (db.documents.filter
            (fun d => (chatDocIds db chat_id).contains d.id)) db).db with
          documents := (sdFold fl (db.documents.filter
            (fun d => (chatDocIds db chat_id).contains d.id)) db).db.documents.filter
              (fun d => !(chatDocIds db chat_id).contains d.id) }).users = db.users := by
        split
        · exact husers
        · exact husers
      rw [hu2, hu]
      simp only [decrementActiveDocs, updateFirst]
      rw [if_pos]
      simp only [huid, beq_self_eq_true, Bool.true_and]
      exact decide_eq_true hcnt

/-- **C3 (counterexample to the claim as stated).** The single-document
delete path confirms a full purge of `d1` (status `deleted`, row and chunks
gone) for the user's only document, yet the user's active-document counter
stays at 1: the counter did not decrease by the number of documents fully
purged by the operation. -/
theorem C3_counterexample :
    (delete_document_route true true dbChatOnly "d1" "chat" "c1" "u1" =
      some ({ documents := [], document_scopes := [], chunks := [],
              vectors := [⟨"d1"⟩], chats := [⟨"c1", "u1", none⟩],
              projects := [], users := [⟨"u1", 1⟩], messages := [], blobs := [] },
            [DelEv.chunks "d1", DelEv.blob "d1" "k1", DelEv.docRow "d1"],
            DelStatus.deleted) ∧
     dbChatOnly.users = [⟨"u1", 1⟩]) := by
  exact ⟨by decide, by decide⟩

/-- Witness for the amended C3 at a concrete input: deleting chat `c1`
with one successfully purged document decrements the counter from 1 to 0. -/
theorem C3_witness :
    (dbChatOnly.users = [UserRow.mk "u1" 1] ∧
     ({ documents := [], document_scopes := [], chunks := [], vectors := [],
        chats := [], projects := [], users := [UserRow.mk "u1" 0], messages := [],
        blobs := [] } : DB).users = [UserRow.mk "u1" 0]) := by
  refine ⟨by decide, ?_⟩
  have h := C3_amended_counter_decrement.2 (fun _ => Flags.mk true true true)
    dbChatOnly "c1" "u1" (UserRow.mk "u1" 1)
    { documents := [], document_scopes := [], chunks := [], vectors := [],
      chats := [], projects := [], users := [UserRow.mk "u1" 0], messages := [],
      blobs := [] }
    [DelEv.vectors "d1", DelEv.chunks "d1", DelEv.blob "d1" "k1", DelEv.docRow "d1"]
    (by decide) rfl (by decide) (by decide) (by decide)
  exact h.trans (by decide)

/-- **C8 (amended).** Partial-failure behaviour as the code implements it:
in the single-document delete path, if the orphaned document's chunk
deletion raises, the route reports `deleting`, the chunks collection is
untouched, and a Document row with that id remains at status `deleting`
for the external cleanup sweep; the batched chat deletion instead removes
every chat-linked Document row unconditionally, succeed or fail. -/
theorem C8_amended_partial_failure :
    ((∀ (s3Ok : Bool) (db : DB) (document_id scope_type scope_id user_id : String)
        (db' : DB) (tr : List DelEv) (st : DelStatus),
        delete_document_route false s3Ok db document_id scope_type scope_id user_id =
          some (db', tr, st) →
        db'.document_scopes.countP (fun l => l.document_id == document_id) = 0 →
        st = DelStatus.deleting ∧ db'.chunks = db.chunks ∧
          ∃ d ∈ db'.documents, d.id = document_id ∧ d.status = DocStatus.deleting) ∧
     (∀ (fl : String → Flags) (db : DB) (chat_id user_id : String)
        (db' : DB) (tr : List DelEv),
        delete_chat fl db chat_id user_id = some (db', tr) →
        ∀ i ∈ chatDocIds db chat_id, ∀ doc ∈ db'.documents, doc.id ≠ i)) := by
  constructor
  · intro s3Ok db document_id scope_type scope_id user_id db' tr st heq hrem0
    unfold delete_document_route at heq
    cases hfind : db.documents.find? (fun d => d.id == document_id) with
    | none => rw [hfind] at heq; cases heq
    | some doc =>
      rw [hfind] at heq
      by_cases hv : validate_scope_ownership db scope_type scope_id user_id
      · by_cases hl :
          db.document_scopes.any (linkTripleMatches document_id scope_type scope_id)
        · simp only [hv, hl, Bool.not_true, Bool.false_eq_true, if_false] at heq
          by_cases hrem : (List.countP (fun l => l.document_id == document_id)
              (eraseFirst (linkTripleMatches document_id scope_type scope_id)
                db.document_scopes) == 0) = true
          · rw [if_pos hrem] at heq
            simp only [Bool.false_eq_true, if_false, Option.some.injEq,
              Prod.mk.injEq] at heq
            obtain ⟨hdb, _, hst⟩ := heq
            refine ⟨hst.symm, by rw [← hdb], ?_⟩
            rw [← hdb]
            refine mem_updateFirst_status document_id db.documents ?_
            exact ⟨doc, List.mem_of_find?_eq_some hfind,
              by simpa using List.find?_some hfind⟩
          · rw [if_neg hrem] at heq
            simp only [Option.some.injEq, Prod.mk.injEq] at heq
            obtain ⟨hdb, _, _⟩ := heq
            exfalso
            apply hrem
            rw [← hdb] at hrem0
            simpa using hrem0
        · simp [hv, hl] at heq
      · simp [hv] at heq
  · intro fl db chat_id user_id db' tr heq i hi doc hdoc
    by_cases hemp : (chatDocIds db chat_id).isEmpty = true
    · rw [List.isEmpty_iff] at hemp
      rw [hemp] at hi
      cases hi
    · rw [delete_chat_documents_nonempty fl db chat_id user_id db' tr
        (Bool.eq_false_iff.mpr hemp) heq] at hdoc
      have hnc := (List.mem_filter.mp hdoc).2
      intro hc
      rw [hc] at hnc
      rw [contains_of_mem hi] at hnc
      cases hnc

/-- **C8 (counterexample to the claim as stated).** In the batched chat
deletion with a failing chunk delete for `d1`, the Document row is removed
anyway (documents collection ends empty, no `deleting` status survives)
while the chunk row for `d1` is still present — dependent data outlives
the Document row, contradicting "the Document row is not removed ... for
every deletion path". -/
theorem C8_counterexample :
    (delete_chat (fun _ => ⟨true, false, true⟩) dbChatOnly "c1" "u1" =
      some ({ documents := [], document_scopes := [],
              chunks := [⟨"ch1", "d1", 0, 1, "hello", [1]⟩], vectors := [],
              chats := [], projects := [], users := [⟨"u1", 1⟩], messages := [],
              blobs := [] },
            [DelEv.vectors "d1", DelEv.chunks "d1", DelEv.blob "d1" "k1",
             DelEv.docRow "d1"]) ∧
     List.countP (fun c => c.document_id == "d1")
       [ChunkRow.mk "ch1" "d1" 0 1 "hello" [1]] = 1) := by
  exact ⟨by decide, by decide⟩

/-- Witness for the amended C8 at a concrete input: the single-document
route with a failing chunk delete leaves `d1` at status `deleting` with
its chunks intact and reports `deleting`. -/
theorem C8_witness :
    (List.countP (fun l => l.document_id == "d1") ([] : List ScopeLink) = 0 ∧
     (DelStatus.deleting = DelStatus.deleting ∧
      ({ dbChatOnly with
          document_scopes := [],
          documents := [⟨"d1", "f.pdf", "k1", "sha256:aa", 3, DocStatus.deleting⟩] } :
        DB).chunks = dbChatOnly.chunks ∧
      ∃ d ∈ ({ dbChatOnly with
          document_scopes := [],
          documents := [⟨"d1", "f.pdf", "k1", "sha256:aa", 3, DocStatus.deleting⟩] } :
        DB).documents,
        d.id = "d1" ∧ d.status = DocStatus.deleting)) :=
  ⟨by decide,
   C8_amended_partial_failure.1 true dbChatOnly "d1" "chat" "c1" "u1"
     { dbChatOnly with
       document_scopes := [],
       documents := [⟨"d1", "f.pdf", "k1", "sha256:aa", 3, DocStatus.deleting⟩] }
     [DelEv.chunks "d1"] DelStatus.deleting (by decide) (by decide)⟩

/-- **C9 (amended).** Link idempotence holds in the `document_routes`
upload path: re-uploading content whose checksum already exists, to a
scope it is already linked to, succeeds with `is_new = false` and leaves
the database (in particular the scope-link collection) completely
unchanged — the `DuplicateKeyError` is swallowed.  The `api_routes` upload
path does not catch the unique-triple violation: the same situation there
surfaces `DuplicateKeyError` to the uploader. -/
theorem C9_amended_link_idempotent :
    ((∀ (shaFn : List Nat → String) (freshDocId : String) (db : DB) (content : List Nat)
        (filename scope_type scope_id user_id : String) (d0 : Doc),
        validate_scope_ownership db scope_type scope_id user_id = true →
        db.documents.find? (fun d => d.checksum == calculate_checksum shaFn content) =
          some d0 →
        (⟨d0.id, scope_type, scope_id⟩ : ScopeLink) ∈ db.document_scopes →
        upload_document_route shaFn freshDocId db content filename scope_type scope_id
            user_id =
          some (db, ⟨d0.id, d0.status, false⟩)) ∧
     (∀ (db : DB) (checksum scope_type scope_id freshDocId s3_key filename : String)
        (size : Nat) (user_id : String) (d0 : Doc),
        db.documents.find? (fun d => d.checksum == checksum) = some d0 →
        (⟨d0.id, scope_type, scope_id⟩ : ScopeLink) ∈ db.document_scopes →
        api_upload_document db checksum scope_type scope_id freshDocId s3_key filename
            size user_id =
          Except.error ApiErr.duplicateKey)) := by
  constructor
  · intro shaFn freshDocId db content filename scope_type scope_id user_id d0
      hv hfind hlink
    unfold upload_document_route
    rw [hv]
    simp only [Bool.not_true, Bool.false_eq_true, if_false]
    rw [hfind]
    dsimp only
    have hdup : insert_scope_link db.document_scopes
        ⟨d0.id, scope_type, scope_id⟩ = Except.error ApiErr.duplicateKey := by
      unfold insert_scope_link
      rw [if_pos]
      exact List.any_eq_true.mpr ⟨⟨d0.id, scope_type, scope_id⟩, hlink, by simp⟩
    rw [hdup]
  · intro db checksum scope_type scope_id freshDocId s3_key filename size user_id d0
      hfind hlink
    unfold api_upload_document
    rw [hfind]
    dsimp only
    have hdup : insert_scope_link db.document_scopes
        ⟨d0.id, scope_type, scope_id⟩ = Except.error ApiErr.duplicateKey := by
      unfold insert_scope_link
      rw [if_pos]
      exact List.any_eq_true.mpr ⟨⟨d0.id, scope_type, scope_id⟩, hlink, by simp⟩
    rw [hdup]

/-- **C9 (counterexample to the claim as stated).** Re-linking document
`d1` (checksum `sha256:aa`) to chat `c1`, where the `(d1, chat, c1)` link
already exists, through the `api_routes` upload path: the unique-triple
violation is surfaced as `DuplicateKeyError` to the uploader instead of
being treated as success. -/
theorem C9_counterexample :
    api_upload_document dbChatOnly "sha256:aa" "chat" "c1" "doc_new" "k2" "g.pdf" 4
        "u1" =
      Except.error ApiErr.duplicateKey := by decide

/-- Witness for the amended C9 at a concrete input: the `document_routes`
upload of already-linked identical content succeeds, reports
`is_new = false`, and leaves the database unchanged. -/
theorem C9_witness :
    (validate_scope_ownership dbChatOnly "chat" "c1" "u1" = true ∧
     upload_document_route (fun _ => "aa") "doc_new" dbChatOnly [1] "f.pdf" "chat"
         "c1" "u1" =
       some (dbChatOnly, ⟨"d1", DocStatus.ready, false⟩)) :=
  ⟨by decide,
   C9_amended_link_idempotent.1 (fun _ => "aa") "doc_new" dbChatOnly [1] "f.pdf"
     "chat" "c1" "u1" ⟨"d1", "f.pdf", "k1", "sha256:aa", 3, DocStatus.ready⟩
     (by decide) (by decide) (by decide)⟩

/-- **C4.** Checksum dedup: uploading byte-identical content to two
different scopes (fresh state for that checksum) creates exactly one
Document row and two ScopeLink rows; the second upload finds the existing
document by checksum, only links it, and reports `is_new = false`.
Moreover any upload preserves "at most one Document row per checksum". -/
theorem C4_dedup_by_checksum :
    ((∀ (shaFn : List Nat → String) (f1 f2 : String) (db : DB) (content : List Nat)
        (filename st1 sid1 st2 sid2 user_id : String),
        validate_scope_ownership db st1 sid1 user_id = true →
        validate_scope_ownership db st2 sid2 user_id = true →
        (∀ d ∈ db.documents, d.checksum ≠ calculate_checksum shaFn content) →
        (∀ d ∈ db.documents,
          d.s3_key ≠ "documents/" ++ st1 ++ "/" ++ sid1 ++ "/" ++ filename) →
        (∀ l ∈ db.document_scopes, l.document_id ≠ f1) →
        ¬(st1 = st2 ∧ sid1 = sid2) →
        ∃ db1 db2,
          upload_document_route shaFn f1 db content filename st1 sid1 user_id =
            some (db1, ⟨f1, DocStatus.pending, true⟩) ∧
          upload_document_route shaFn f2 db1 content filename st2 sid2 user_id =
            some (db2, ⟨f1, DocStatus.pending, false⟩) ∧
          db2.documents.countP
            (fun d => d.checksum == calculate_checksum shaFn content) = 1 ∧
          db2.document_scopes.countP (fun l => l.document_id == f1) = 2) ∧
     (∀ (shaFn : List Nat → String) (freshDocId : String) (db : DB)
        (content : List Nat) (filename scope_type scope_id user_id : String)
        (db' : DB) (r : UploadResp),
        upload_document_route shaFn freshDocId db content filename scope_type scope_id
            user_id = some (db', r) →
        db.documents.countP
          (fun d => d.checksum == calculate_checksum shaFn content) ≤ 1 →
        db'.documents.countP
          (fun d => d.checksum == calculate_checksum shaFn content) ≤ 1)) := by
  constructor
  · intro shaFn f1 f2 db content filename st1 sid1 st2 sid2 user_id
      hv1 hv2 hck hs3 hlinks hscope
    have hfind1 : db.documents.find?
        (fun d => d.checksum == calculate_checksum shaFn content) = none :=
      List.find?_eq_none.mpr (fun x hx => by simp [hck x hx])
    have hcount0 : db.documents.countP
        (fun d => d.checksum == calculate_checksum shaFn content) = 0 :=
      List.countP_eq_zero.mpr (fun x hx => by simp [hck x hx])
    have hlcount0 : db.document_scopes.countP (fun l => l.document_id == f1) = 0 :=
      List.countP_eq_zero.mpr (fun x hx => by simp [hlinks x hx])
    have hins : insert_document db.documents
        ⟨f1, filename, "documents/" ++ st1 ++ "/" ++ sid1 ++ "/" ++ filename,
         calculate_checksum shaFn content, content.length, DocStatus.pending⟩ =
        Except.ok (db.documents ++
          [⟨f1, filename, "documents/" ++ st1 ++ "/" ++ sid1 ++ "/" ++ filename,
            calculate_checksum shaFn content, content.length, DocStatus.pending⟩]) := by
      unfold insert_document
      rw [if_neg]
      intro hc
      obtain ⟨x, hx, hor⟩ := List.any_eq_true.mp hc
      rcases Bool.or_eq_true _ _ |>.mp hor with h | h
      · exact hck x hx (by simpa using h)
      · exact hs3 x hx (by simpa using h)
    have hlink1 : insert_scope_link db.document_scopes ⟨f1, st1, sid1⟩ =
        Except.ok (db.document_scopes ++ [⟨f1, st1, sid1⟩]) := by
      unfold insert_scope_link
      rw [if_neg]
      intro hc
      obtain ⟨x, hx, hand⟩ := List.any_eq_true.mp hc
      have := (Bool.and_eq_true _ _ |>.mp (Bool.and_eq_true _ _ |>.mp hand).1).1
      exact hlinks x hx (by simpa using this)
    have h1 : upload_document_route shaFn f1 db content filename st1 sid1 user_id =
        some ({ db with
            documents := db.documents ++
              [⟨f1, filename, "documents/" ++ st1 ++ "/" ++ sid1 ++ "/" ++ filename,
                calculate_checksum shaFn content, content.length, DocStatus.pending⟩],
            document_scopes := db.document_scopes ++ [⟨f1, st1, sid1⟩],
            blobs := db.blobs ++
              ["documents/" ++ st1 ++ "/" ++ sid1 ++ "/" ++ filename] },
          ⟨f1, DocStatus.pending, true⟩) := by
      unfold upload_document_route
      rw [hv1]
      simp only [Bool.not_true, Bool.false_eq_true, if_false]
      rw [hfind1]
      dsimp only
      rw [hins]
      dsimp only
      rw [hlink1]
    have hfind2 : (db.documents ++
        [(⟨f1, filename, "documents/" ++ st1 ++ "/" ++ sid1 ++ "/" ++ filename,
          calculate_checksum shaFn content, content.length, DocStatus.pending⟩ : Doc)]).find?
        (fun d => d.checksum == calculate_checksum shaFn content) =
        some ⟨f1, filename, "documents/" ++ st1 ++ "/" ++ sid1 ++ "/" ++ filename,
          calculate_checksum shaFn content, content.length, DocStatus.pending⟩ := by
      rw [find?_append_of_none hfind1]
      exact List.find?_cons_of_pos _ (by simp)
    have hlink2 : insert_scope_link (db.document_scopes ++ [⟨f1, st1, sid1⟩])
        ⟨f1, st2, sid2⟩ =
        Except.ok (db.document_scopes ++ [⟨f1, st1, sid1⟩] ++ [⟨f1, st2, sid2⟩]) := by
      unfold insert_scope_link
      rw [if_neg]
      intro hc
      obtain ⟨x, hx, hand⟩ := List.any_eq_true.mp hc
      rcases List.mem_append.mp hx with hx | hx
      · have := (Bool.and_eq_true _ _ |>.mp (Bool.and_eq_true _ _ |>.mp hand).1).1
        exact hlinks x hx (by simpa using this)
      · have hx1 : x = ⟨f1, st1, sid1⟩ := by simpa using hx
        subst hx1
        simp only [Bool.and_eq_true, beq_iff_eq] at hand
        exact hscope ⟨hand.1.2, hand.2⟩
    have h2 : upload_document_route shaFn f2
        { db with
          documents := db.documents ++
            [⟨f1, filename, "documents/" ++ st1 ++ "/" ++ sid1 ++ "/" ++ filename,
              calculate_checksum shaFn content, content.length, DocStatus.pending⟩],
          document_scopes := db.document_scopes ++ [⟨f1, st1, sid1⟩],
          blobs := db.blobs ++
            ["documents/" ++ st1 ++ "/" ++ sid1 ++ "/" ++ filename] }
        content filename st2 sid2 user_id =
        some ({ db with
            documents := db.documents ++
              [⟨f1, filename, "documents/" ++ st1 ++ "/" ++ sid1 ++ "/" ++ filename,
                calculate_checksum shaFn content, content.length, DocStatus.pending⟩],
            document_scopes := db.document_scopes ++ [⟨f1, st1, sid1⟩] ++
              [⟨f1, st2, sid2⟩],
            blobs := db.blobs ++
              ["documents/" ++ st1 ++ "/" ++ sid1 ++ "/" ++ filename] },
          ⟨f1, DocStatus.pending, false⟩) := by
      unfold upload_document_route
      rw [show validate_scope_ownership
          { db with
            documents := db.documents ++
              [⟨f1, filename, "documents/" ++ st1 ++ "/" ++ sid1 ++ "/" ++ filename,
                calculate_checksum shaFn content, content.length, DocStatus.pending⟩],
            document_scopes := db.document_scopes ++ [⟨f1, st1, sid1⟩],
            blobs := db.blobs ++
              ["documents/" ++ st1 ++ "/" ++ sid1 ++ "/" ++ filename] }
          st2 sid2 user_id = true from hv2]
      simp only [Bool.not_true, Bool.false_eq_true, if_false]
      rw [show ({ db with
          documents := db.documents ++
            [⟨f1, filename, "documents/" ++ st1 ++ "/" ++ sid1 ++ "/" ++ filename,
              calculate_checksum shaFn content, content.length, DocStatus.pending⟩],
          document_scopes := db.document_scopes ++ [⟨f1, st1, sid1⟩],
          blobs := db.blobs ++
            ["documents/" ++ st1 ++ "/" ++ sid1 ++ "/" ++ filename] } : DB).documents.find?
          (fun d => d.checksum == calculate_checksum shaFn content) =
          some ⟨f1, filename, "documents/" ++ st1 ++ "/" ++ sid1 ++ "/" ++ filename,
            calculate_checksum shaFn content, content.length, DocStatus.pending⟩
        from hfind2]
      dsimp only
      rw [hlink2]
    refine ⟨_, _, h1, h2, ?_, ?_⟩
    · rw [List.countP_append, hcount0]
      simp
    · rw [List.countP_append, List.countP_append, hlcount0]
      simp
  · intro shaFn freshDocId db content filename scope_type scope_id user_id db' r
      heq hle
    unfold upload_document_route at heq
    by_cases hv : validate_scope_ownership db scope_type scope_id user_id
    · rw [hv] at heq
      simp only [Bool.not_true, Bool.false_eq_true, if_false] at heq
      cases hfind : db.documents.find?
          (fun d => d.checksum == calculate_checksum shaFn content) with
      | some doc =>
        rw [hfind] at heq
        dsimp only at heq
        cases hins : insert_scope_link db.document_scopes
            ⟨doc.id, scope_type, scope_id⟩ with
        | ok ls =>
          rw [hins] at heq
          dsimp only at heq
          simp only [Option.some.injEq, Prod.mk.injEq] at heq
          rw [← heq.1]
          exact hle
        | error e =>
          rw [hins] at heq
          dsimp only at heq
          simp only [Option.some.injEq, Prod.mk.injEq] at heq
          rw [← heq.1]
          exact hle
      | none =>
        rw [hfind] at heq
        dsimp only at heq
        have hcount0 : db.documents.countP
            (fun d => d.checksum == calculate_checksum shaFn content) = 0 :=
          List.countP_eq_zero.mpr (List.find?_eq_none.mp hfind)
        cases hins : insert_document db.documents
            ⟨freshDocId, filename,
             "documents/" ++ scope_type ++ "/" ++ scope_id ++ "/" ++ filename,
             calculate_checksum shaFn content, content.length, DocStatus.pending⟩ with
        | ok docs =>
          rw [hins] at heq
          dsimp only at heq
          have hdocs : docs = db.documents ++
              [⟨freshDocId, filename,
                "documents/" ++ scope_type ++ "/" ++ scope_id ++ "/" ++ filename,
                calculate_checksum shaFn content, content.length,
                DocStatus.pending⟩] := by
            unfold insert_document at hins
            by_cases hany : (db.documents.any fun x =>
                x.checksum == calculate_checksum shaFn content ||
                x.s3_key == "documents/" ++ scope_type ++ "/" ++ scope_id ++ "/" ++
                  filename) = true
            · rw [if_pos hany] at hins
              cases hins
            · rw [if_neg hany] at hins
              exact (Except.ok.inj hins).symm
          cases hlk : insert_scope_link db.document_scopes
              ⟨freshDocId, scope_type, scope_id⟩ with
          | ok ls =>
            rw [hlk] at heq
            dsimp only at heq
            simp only [Option.some.injEq, Prod.mk.injEq] at heq
            rw [← heq.1, hdocs, List.countP_append, hcount0]
            simp
          | error e =>
            rw [hlk] at heq
            dsimp only at heq
            simp only [Option.some.injEq, Prod.mk.injEq] at heq
            rw [← heq.1, hdocs, List.countP_append, hcount0]
            simp
        | error e =>
          rw [hins] at heq
          dsimp only at heq
          cases heq
    · rw [Bool.eq_false_iff.mpr hv] at heq
      simp only [Bool.not_false, if_true] at heq
      cases heq

/-- Witness for C4 at a concrete input: new content (`checksum sha256:bb`)
uploaded first to chat `c1`, then to project `p1`, ends with one Document
row for that checksum and two scope links. -/
theorem C4_witness :
    (validate_scope_ownership dbChatAndProject "chat" "c1" "u1" = true ∧
     validate_scope_ownership dbChatAndProject "project" "p1" "u1" = true ∧
     ∃ db1 db2,
       upload_document_route (fun _ => "bb") "doc_a" dbChatAndProject [7] "g.pdf"
           "chat" "c1" "u1" = some (db1, ⟨"doc_a", DocStatus.pending, true⟩) ∧
       upload_document_route (fun _ => "bb") "doc_b" db1 [7] "g.pdf"
           "project" "p1" "u1" = some (db2, ⟨"doc_a", DocStatus.pending, false⟩) ∧
       db2.documents.countP
         (fun d => d.checksum == calculate_checksum (fun _ => "bb") [7]) = 1 ∧
       db2.document_scopes.countP (fun l => l.document_id == "doc_a") = 2) :=
  ⟨by decide, by decide,
   C4_dedup_by_checksum.1 (fun _ => "bb") "doc_a" "doc_b" dbChatAndProject [7] "g.pdf"
     "chat" "c1" "project" "p1" "u1" (by decide) (by decide)
     (by decide) (by decide) (by decide) (by decide)⟩

end Querious
